import Mathlib

/-!
# AlgoLab2: order statistics and quicksort over integer arrays

A shallow embedding of the C++ sources `common.h`, `task2-a-min-max-element.cpp`,
`task2-b-median.cpp`, `task2-c-kth-order-statistics.cpp` and `task3-quicksort.cpp`.

Modelling conventions.

* A buffer (`std::vector<int>` or the `int *` into it) is a `List Int`.  The
  programs only compare and move elements, so element values are plain integers.
  A pointer `&v[off]` together with a length `n` is the pair `off n` over the
  whole buffer: `data[i]` is position `off + i` of the buffer.
* `std::swap(a[i], a[j])` is `swap a i j`.  Reads use `List.getD _ _ 0` and
  writes use `List.set`; all theorems below are stated for indices inside the
  buffer, where these agree with the C++ accesses.
* `size_t` values are natural numbers; the subtractions `x - 1` of the sources
  are only reached with `x ≥ 1`.  The `int` variables `k`, `left`, `right` of
  `quickSelect` are integers; vector lengths are taken to fit in `int`.
* `rand()` is a stream of outcomes `RandSrc`; each call consumes the head.
* Exceptions are values of `Error`; every function that can throw returns its
  result together with the buffer and random source at that moment.
* `while` loops and recursion take a step budget (`fuel`); running out of it is
  reported as `Error.out_of_fuel`, which is not an outcome of the program.
* `double` results of the median functions are rationals: converting an `int`
  to `double`, adding two such values and halving are all exact.
-/

namespace AlgoLab2

/-- Outcomes other than a normal return.  `invalid_argument` and `runtime_error`
are the two C++ exceptions thrown by the sources; `out_of_fuel` means that the
step budget of the model was exhausted. -/
inductive Error where
  | invalid_argument
  | runtime_error
  | out_of_fuel
  deriving DecidableEq, Repr

deriving instance DecidableEq for Except

/-- The process-wide random source: the outcomes of successive `rand()` calls. -/
abbrev RandSrc := Nat → Nat

/-- One call of `rand()`: the outcome and the remaining source. -/
def rand (g : RandSrc) : Nat × RandSrc := (g 0, fun i => g (i + 1))

/-- The effect of `std::swap(a[i], a[j])`. -/
def swap (a : List Int) (i j : Nat) : List Int :=
  (a.set i (a.getD j 0)).set j (a.getD i 0)

/-- The multiset of a buffer is kept and only positions `lo ≤ x < hi` may differ:
`b` is reached from `a` by exchanges of two positions inside `[lo, hi)`. -/
inductive WinPerm (lo hi : Nat) : List Int → List Int → Prop
  | refl (a : List Int) : WinPerm lo hi a a
  | step {a b : List Int} (i j : Nat) : WinPerm lo hi a b → lo ≤ i → i < hi → lo ≤ j → j < hi →
      i < b.length → j < b.length → WinPerm lo hi a (swap b i j)

/-- Positions `lo ≤ x < hi` of `v` are in non-decreasing order. -/
def SortedOn (v : List Int) (lo hi : Nat) : Prop :=
  ∀ i j, lo ≤ i → i ≤ j → j < hi → v.getD i 0 ≤ v.getD j 0

/-- Position `p` of `v` holds a value that is at least every earlier element and
at most every later one. -/
def Selected (v : List Int) (p : Nat) : Prop :=
  (∀ i, i < p → v.getD i 0 ≤ v.getD p 0) ∧ (∀ i, p < i → i < v.length → v.getD p 0 ≤ v.getD i 0)

/-- Every element before position `b` is at most every element from `b` on. -/
def SplitAt (v : List Int) (b : Nat) : Prop :=
  ∀ i j, i < b → b ≤ j → j < v.length → v.getD i 0 ≤ v.getD j 0

/-- The reference for order statistics: `v` sorted ascending. -/
def sortedCopy (v : List Int) : List Int := v.insertionSort (· ≤ ·)

/-- The statistical median of `v` as a rational, read off the sorted copy `s`:
`s[n/2]` for odd `n`, the mean of `s[n/2 - 1]` and `s[n/2]` for even `n`. -/
def statMedian (v : List Int) : ℚ :=
  if v.length % 2 = 1 then ((sortedCopy v).getD (v.length / 2) 0 : ℚ)
  else (((sortedCopy v).getD (v.length / 2 - 1) 0 : ℚ) + ((sortedCopy v).getD (v.length / 2) 0 : ℚ)) / 2

/-- The type `Pivot_f = size_t (*)(int *, size_t)` of `common.h`.  The arguments
are the buffer, the offset of `data` in it, `n`, and the random source; the
result is the returned index (relative to `data`) or the exception, with the
buffer and random source after the call. -/
abbrev Pivot_f := List Int → Nat → Nat → RandSrc → Except Error Nat × List Int × RandSrc

/-- `deterministicPivot` of `common.h`: the first element.  (`data` is never
null for a pointer into a buffer.) -/
def deterministicPivot : Pivot_f := fun buf _off n g =>
  if n ≤ 0 then (.error .invalid_argument, buf, g)
  else (.ok 0, buf, g)

/-- `uniformRandomPivot` of `common.h`: `rand() % n`. -/
def uniformRandomPivot : Pivot_f := fun buf _off n g =>
  if n ≤ 0 then (.error .invalid_argument, buf, g)
  else
    let (r, g1) := rand g
    (.ok (r % n), buf, g1)

/-- A pivot strategy that, on a view of `n > 0` elements inside the buffer,
returns an index in `[0, n - 1]` and leaves the buffer as it was. -/
def PurePivot (pf : Pivot_f) : Prop :=
  ∀ buf off n g, 0 < n → off + n ≤ buf.length →
    ∃ i g1, pf buf off n g = (.ok i, buf, g1) ∧ i < n

/-- A pivot strategy that, on a view of `n > 0` elements inside a buffer of
length `L`, returns an index in `[0, n - 1]` and at most reorders the view. -/
def GoodPivot (L : Nat) (pf : Pivot_f) : Prop :=
  ∀ buf off n g, buf.length = L → 0 < n → off + n ≤ L →
    ∃ i buf1 g1, pf buf off n g = (.ok i, buf1, g1) ∧ i < n ∧ WinPerm off (off + n) buf buf1

/-! ## task2-a-min-max-element.cpp -/

/-- The `for (size_t i = 1; i < v.size(); ++i)` loop of `minMaxElement`; the
first argument is the number of iterations left. -/
def minMaxLoop (v : List Int) : Nat → Nat → Int → Int → Int × Int
  | 0, _, min_val, max_val => (min_val, max_val)
  | steps + 1, i, min_val, max_val =>
    if v.getD i 0 < min_val then minMaxLoop v steps (i + 1) (v.getD i 0) max_val
    else if v.getD i 0 > max_val then minMaxLoop v steps (i + 1) min_val (v.getD i 0)
    else minMaxLoop v steps (i + 1) min_val max_val

/-- `minMaxElement` of `task2-a-min-max-element.cpp`. -/
def minMaxElement (v : List Int) : Except Error (Int × Int) :=
  if v.isEmpty then .error .invalid_argument
  else .ok (minMaxLoop v (v.length - 1) 1 (v.getD 0 0) (v.getD 0 0))

/-! ## task2-c-kth-order-statistics.cpp -/

namespace KthOrder

/-- The `for (size_t j = low; j < high; ++j)` loop of `partition`; the first
argument is the number of iterations left (`high - j`). -/
def partitionLoop (pivotValue : Int) : Nat → Nat → Nat → List Int → Nat × List Int
  | 0, _, i, arr => (i, arr)
  | steps + 1, j, i, arr =>
    if arr.getD j 0 < pivotValue then partitionLoop pivotValue steps (j + 1) (i + 1) (swap arr i j)
    else partitionLoop pivotValue steps (j + 1) i arr

/-- `partition(arr, low, high, pivotIndex)` of `task2-c-kth-order-statistics.cpp`:
the returned index and the buffer afterwards. -/
def partition (arr : List Int) (low high pivotIndex : Nat) : Nat × List Int :=
  let pivotValue := arr.getD pivotIndex 0
  let arr1 := swap arr pivotIndex high
  let (i, arr2) := partitionLoop pivotValue (high - low) low low arr1
  (i, swap arr2 i high)

/-- The `while (left <= right)` loop of `quickSelect`.  `left` and `right` are
`int` in the source and are converted to `size_t` at the calls. -/
def quickSelectLoop (pivotFunction : Pivot_f) (k : Int) :
    Nat → List Int → Int → Int → RandSrc → Except Error Int × List Int × RandSrc
  | 0, v, _, _, g => (.error .out_of_fuel, v, g)
  | fuel + 1, v, left, right, g =>
    if left ≤ right then
      match pivotFunction v left.toNat (right - left + 1).toNat g with
      | (.error e, v1, g1) => (.error e, v1, g1)
      | (.ok pivotIndex, v1, g1) =>
        let pivotPosition := left.toNat + pivotIndex
        let (newPivotPosition, v2) := partition v1 left.toNat right.toNat pivotPosition
        if (newPivotPosition : Int) = k - 1 then
          (.ok (v2.getD newPivotPosition 0), v2, g1)
        else if (newPivotPosition : Int) > k - 1 then
          quickSelectLoop pivotFunction k fuel v2 left ((newPivotPosition : Int) - 1) g1
        else
          quickSelectLoop pivotFunction k fuel v2 ((newPivotPosition : Int) + 1) right g1
    else (.error .runtime_error, v, g)

/-- `quickSelect(v, k, pivotFunction)` of `task2-c-kth-order-statistics.cpp`.
A null `pivotFunction` is `none`.  The four tests of the guard have no side
effects, so their order does not matter. -/
def quickSelect (fuel : Nat) (v : List Int) (k : Int) (pivotFunction : Option Pivot_f)
    (g : RandSrc) : Except Error Int × List Int × RandSrc :=
  match pivotFunction with
  | none => (.error .invalid_argument, v, g)
  | some pf =>
    if v.isEmpty ∨ k ≤ 0 ∨ k > (v.length : Int) then (.error .invalid_argument, v, g)
    else quickSelectLoop pf k fuel v 0 ((v.length : Int) - 1) g

end KthOrder

/-! ## task2-b-median.cpp -/

namespace Median

/-- The `for (size_t j = low; j < high; ++j)` loop shared by the text of
`deterministic_partition` and `random_partition`. -/
def partitionLoop (pivotValue : Int) : Nat → Nat → Nat → List Int → Nat × List Int
  | 0, _, i, arr => (i, arr)
  | steps + 1, j, i, arr =>
    if arr.getD j 0 < pivotValue then partitionLoop pivotValue steps (j + 1) (i + 1) (swap arr i j)
    else partitionLoop pivotValue steps (j + 1) i arr

/-- `deterministic_partition(arr, low, high)` of `task2-b-median.cpp`. -/
def deterministic_partition (arr : List Int) (low high : Nat) (g : RandSrc) :
    Except Error Nat × List Int × RandSrc :=
  match deterministicPivot arr low (high - low + 1) g with
  | (.error e, a1, g1) => (.error e, a1, g1)
  | (.ok p, a1, g1) =>
    let pivotIdx := p + low
    let pivotValue := a1.getD pivotIdx 0
    let a2 := swap a1 pivotIdx high
    let (i, a3) := partitionLoop pivotValue (high - low) low low a2
    (.ok i, swap a3 i high, g1)

/-- `deterministicQuickSelect(arr, low, high, k)` of `task2-b-median.cpp`. -/
def deterministicQuickSelect :
    Nat → List Int → Nat → Nat → Nat → RandSrc → Except Error Int × List Int × RandSrc
  | 0, arr, _, _, _, g => (.error .out_of_fuel, arr, g)
  | fuel + 1, arr, low, high, k, g =>
    if low = high then (.ok (arr.getD low 0), arr, g)
    else
      match deterministic_partition arr low high g with
      | (.error e, a1, g1) => (.error e, a1, g1)
      | (.ok pivotIdx, a1, g1) =>
        if k = pivotIdx then (.ok (a1.getD pivotIdx 0), a1, g1)
        else if k < pivotIdx then deterministicQuickSelect fuel a1 low (pivotIdx - 1) k g1
        else deterministicQuickSelect fuel a1 (pivotIdx + 1) high k g1

/-- `medianDeterministicPivot(v)` of `task2-b-median.cpp`.  The selections run
on the copy `arr`; the second component of the result is the caller's `v`
after the call.  The two operands of `+` are evaluated left to right. -/
def medianDeterministicPivot (fuel : Nat) (v : List Int) (g : RandSrc) :
    Except Error ℚ × List Int × RandSrc :=
  if v.isEmpty then (.error .invalid_argument, v, g)
  else
    let n := v.length
    let arr := v
    if n % 2 = 0 then
      let k1 := n / 2 - 1
      let k2 := n / 2
      match deterministicQuickSelect fuel arr 0 (n - 1) k1 g with
      | (.error e, _, g1) => (.error e, v, g1)
      | (.ok x1, arr1, g1) =>
        match deterministicQuickSelect fuel arr1 0 (n - 1) k2 g1 with
        | (.error e, _, g2) => (.error e, v, g2)
        | (.ok x2, _, g2) => (.ok (((x1 : ℚ) + (x2 : ℚ)) / 2), v, g2)
    else
      let k := n / 2
      match deterministicQuickSelect fuel arr 0 (n - 1) k g with
      | (.error e, _, g1) => (.error e, v, g1)
      | (.ok x, _, g1) => (.ok (x : ℚ), v, g1)

/-- `random_partition(arr, low, high)` of `task2-b-median.cpp`. -/
def random_partition (arr : List Int) (low high : Nat) (g : RandSrc) :
    Except Error Nat × List Int × RandSrc :=
  match uniformRandomPivot arr low (high - low + 1) g with
  | (.error e, a1, g1) => (.error e, a1, g1)
  | (.ok p, a1, g1) =>
    let pivotIdx := p + low
    let pivotValue := a1.getD pivotIdx 0
    let a2 := swap a1 pivotIdx high
    let (i, a3) := partitionLoop pivotValue (high - low) low low a2
    (.ok i, swap a3 i high, g1)

/-- `randomQuickSelect(arr, low, high, k)` of `task2-b-median.cpp`. -/
def randomQuickSelect :
    Nat → List Int → Nat → Nat → Nat → RandSrc → Except Error Int × List Int × RandSrc
  | 0, arr, _, _, _, g => (.error .out_of_fuel, arr, g)
  | fuel + 1, arr, low, high, k, g =>
    if low = high then (.ok (arr.getD low 0), arr, g)
    else
      match random_partition arr low high g with
      | (.error e, a1, g1) => (.error e, a1, g1)
      | (.ok pivotIdx, a1, g1) =>
        if k = pivotIdx then (.ok (a1.getD pivotIdx 0), a1, g1)
        else if k < pivotIdx then randomQuickSelect fuel a1 low (pivotIdx - 1) k g1
        else randomQuickSelect fuel a1 (pivotIdx + 1) high k g1

/-- `medianUniformRandomPivot(v)` of `task2-b-median.cpp`. -/
def medianUniformRandomPivot (fuel : Nat) (v : List Int) (g : RandSrc) :
    Except Error ℚ × List Int × RandSrc :=
  if v.isEmpty then (.error .invalid_argument, v, g)
  else
    let n := v.length
    let arr := v
    if n % 2 = 0 then
      let k1 := n / 2 - 1
      let k2 := n / 2
      match randomQuickSelect fuel arr 0 (n - 1) k1 g with
      | (.error e, _, g1) => (.error e, v, g1)
      | (.ok x1, arr1, g1) =>
        match randomQuickSelect fuel arr1 0 (n - 1) k2 g1 with
        | (.error e, _, g2) => (.error e, v, g2)
        | (.ok x2, _, g2) => (.ok (((x1 : ℚ) + (x2 : ℚ)) / 2), v, g2)
    else
      let k := n / 2
      match randomQuickSelect fuel arr 0 (n - 1) k g with
      | (.error e, _, g1) => (.error e, v, g1)
      | (.ok x, _, g1) => (.ok (x : ℚ), v, g1)

end Median

/-! ## task3-quicksort.cpp -/

namespace Quicksort

/-- The inner `for (size_t i = left + 1; i <= right; i++)` loop of
`deterministicMedianPivot`; `data[x]` is position `off + x` of the buffer and
`data[pivotIndex]` is read afresh at every comparison. -/
def medianScan (off pivotIndex : Nat) : Nat → Nat → Nat → List Int → Nat × List Int
  | 0, _, pivotNewIndex, buf => (pivotNewIndex, buf)
  | steps + 1, i, pivotNewIndex, buf =>
    if buf.getD (off + i) 0 < buf.getD (off + pivotIndex) 0 then
      medianScan off pivotIndex steps (i + 1) (pivotNewIndex + 1)
        (swap buf (off + i) (off + pivotNewIndex))
    else medianScan off pivotIndex steps (i + 1) pivotNewIndex buf

/-- The `while (left < right)` loop of `deterministicMedianPivot`.  Besides the
result and the buffer it returns the list of the pairs `(left, right)` with
which the loop condition was evaluated, in order. -/
def medianLoop (off target : Nat) :
    Nat → Nat → Nat → List Int → Except Error Nat × List Int × List (Nat × Nat)
  | 0, _, _, buf => (.error .out_of_fuel, buf, [])
  | fuel + 1, left, right, buf =>
    if left < right then
      let pivotIndex := left
      let (pivotNewIndex, buf1) := medianScan off pivotIndex (right - left) (left + 1) left buf
      let buf2 := swap buf1 (off + pivotIndex) (off + pivotNewIndex)
      if pivotNewIndex = target then (.ok pivotNewIndex, buf2, [(left, right)])
      else if pivotNewIndex < target then
        let (r, b, t) := medianLoop off target fuel (pivotNewIndex + 1) right buf2
        (r, b, (left, right) :: t)
      else
        let (r, b, t) := medianLoop off target fuel left (pivotNewIndex - 1) buf2
        (r, b, (left, right) :: t)
    else (.ok left, buf, [(left, right)])

/-- `deterministicMedianPivot(data, n)` of `task3-quicksort.cpp`. -/
def deterministicMedianPivot (fuel : Nat) : Pivot_f := fun buf off n g =>
  if n ≤ 0 then (.error .invalid_argument, buf, g)
  else
    let (r, buf1, _) := medianLoop off (n / 2) fuel 0 (n - 1) buf
    (r, buf1, g)

/-- `uniformRandomMedianPivot(data, n)` of `task3-quicksort.cpp`. -/
def uniformRandomMedianPivot : Pivot_f := fun buf off n g =>
  if n ≤ 0 then (.error .invalid_argument, buf, g)
  else
    let (r, g1) := rand g
    let randomIndex := r % n
    (.ok (n - 1), swap buf (off + randomIndex) (off + (n - 1)), g1)

/-- The `for (size_t i = left; i < right; ++i)` loop of `partition`. -/
def partitionLoop (pivotValue : Int) : Nat → Nat → Nat → List Int → Nat × List Int
  | 0, _, storeIndex, v => (storeIndex, v)
  | steps + 1, i, storeIndex, v =>
    if v.getD i 0 < pivotValue then
      partitionLoop pivotValue steps (i + 1) (storeIndex + 1) (swap v i storeIndex)
    else partitionLoop pivotValue steps (i + 1) storeIndex v

/-- `partition(v, pivotFunction, left, right)` of `task3-quicksort.cpp`. -/
def partition (v : List Int) (pivotFunction : Pivot_f) (left right : Nat) (g : RandSrc) :
    Except Error Nat × List Int × RandSrc :=
  match pivotFunction v left (right - left + 1) g with
  | (.error e, v1, g1) => (.error e, v1, g1)
  | (.ok p, v1, g1) =>
    let pivotIndex := p + left
    let pivotValue := v1.getD pivotIndex 0
    let v2 := swap v1 pivotIndex right
    let (storeIndex, v3) := partitionLoop pivotValue (right - left) left left v2
    (.ok storeIndex, swap v3 storeIndex right, g1)

/-- `quickSort(v, pivotFunction, left, right)` of `task3-quicksort.cpp`. -/
def quickSort (pivotFunction : Pivot_f) :
    Nat → List Int → Nat → Nat → RandSrc → Except Error Unit × List Int × RandSrc
  | 0, v, _, _, g => (.error .out_of_fuel, v, g)
  | fuel + 1, v, left, right, g =>
    if left < right then
      match partition v pivotFunction left right g with
      | (.error e, v1, g1) => (.error e, v1, g1)
      | (.ok pivotIndex, v1, g1) =>
        match (if left < pivotIndex then quickSort pivotFunction fuel v1 left (pivotIndex - 1) g1
               else (.ok (), v1, g1)) with
        | (.error e, v2, g2) => (.error e, v2, g2)
        | (.ok _, v2, g2) =>
          if pivotIndex < right then quickSort pivotFunction fuel v2 (pivotIndex + 1) right g2
          else (.ok (), v2, g2)
    else (.ok (), v, g)

/-- `quickSortSimplePivot(v, pivotFunction)` of `task3-quicksort.cpp`. -/
def quickSortSimplePivot (fuel : Nat) (v : List Int) (pivotFunction : Pivot_f) (g : RandSrc) :
    Except Error Unit × List Int × RandSrc :=
  if v.isEmpty then (.ok (), v, g)
  else quickSort pivotFunction fuel v 0 (v.length - 1) g

/-- `quickSortMedianPivot(v, pivotFunction)` of `task3-quicksort.cpp`. -/
def quickSortMedianPivot (fuel : Nat) (v : List Int) (pivotFunction : Pivot_f) (g : RandSrc) :
    Except Error Unit × List Int × RandSrc :=
  if v.isEmpty then (.ok (), v, g)
  else quickSort pivotFunction fuel v 0 (v.length - 1) g

end Quicksort

/-! ## Ghost traces

The functions below do not belong to the program.  They follow the control flow
of a loop or recursion of the program, on the same states, and list what
happens on the way; the theorems on index validity are stated about them. -/

/-- An observation made while a selection or a sort runs. -/
inductive Event where
  /-- The condition of the `while` loop of `quickSelect` is evaluated with these
  values of the `int` variables `left` and `right`. -/
  | loopHead (left right : Int)
  /-- A partition step starts on the range `[low, high]` with the pivot at
  `pivotIndex`, on a buffer of `len` elements. -/
  | partitionCall (low high pivotIndex len : Nat)
  /-- The `size_t` subtraction `x - 1` is evaluated. -/
  | predecessor (x : Nat)
  deriving DecidableEq, Repr

/-- The observation is harmless: `left` is a valid `size_t` and the window is
not empty; the range of a partition step is `low ≤ high` inside the buffer with
the pivot inside the range; `x - 1` does not wrap around. -/
def Event.Valid : Event → Prop
  | .loopHead left right => 0 ≤ left ∧ left ≤ right
  | .partitionCall low high pivotIndex len =>
    low ≤ high ∧ low < len ∧ high < len ∧ low ≤ pivotIndex ∧ pivotIndex ≤ high
  | .predecessor x => 1 ≤ x

/-- A pivot strategy that, on a view of `n > 0` elements inside a buffer of
length `L`, returns an index in `[0, n - 1]`; it may change the values stored
in the buffer in any way. -/
def InWindowPivot (L : Nat) (pf : Pivot_f) : Prop :=
  ∀ buf off n g, buf.length = L → 0 < n → off + n ≤ L →
    ∃ i buf1 g1, pf buf off n g = (.ok i, buf1, g1) ∧ i < n ∧ buf1.length = L

/-- The observations of `KthOrder.quickSelectLoop` on the same arguments: every
evaluation of the loop condition, every call of `partition` and every
evaluation of `newPivotPosition - 1`. -/
def KthOrder.quickSelectEvents (pivotFunction : Pivot_f) (k : Int) :
    Nat → List Int → Int → Int → RandSrc → List Event
  | 0, _, _, _, _ => []
  | fuel + 1, v, left, right, g =>
    if left ≤ right then
      match pivotFunction v left.toNat (right - left + 1).toNat g with
      | (.error _, _, _) => [.loopHead left right]
      | (.ok pivotIndex, v1, g1) =>
        let pivotPosition := left.toNat + pivotIndex
        let (newPivotPosition, v2) := KthOrder.partition v1 left.toNat right.toNat pivotPosition
        if (newPivotPosition : Int) = k - 1 then
          [.loopHead left right, .partitionCall left.toNat right.toNat pivotPosition v1.length]
        else if (newPivotPosition : Int) > k - 1 then
          .loopHead left right :: .partitionCall left.toNat right.toNat pivotPosition v1.length ::
            .predecessor newPivotPosition ::
            KthOrder.quickSelectEvents pivotFunction k fuel v2 left ((newPivotPosition : Int) - 1) g1
        else
          .loopHead left right :: .partitionCall left.toNat right.toNat pivotPosition v1.length ::
            KthOrder.quickSelectEvents pivotFunction k fuel v2 ((newPivotPosition : Int) + 1) right g1
    else [.loopHead left right]

/-- The partition step made by `Median.deterministic_partition` on these
arguments, with the pivot index it computes. -/
def Median.deterministicPartitionEvents (arr : List Int) (low high : Nat) (g : RandSrc) :
    List Event :=
  match deterministicPivot arr low (high - low + 1) g with
  | (.error _, _, _) => []
  | (.ok p, a1, _) => [.partitionCall low high (p + low) a1.length]

/-- The observations of `Median.deterministicQuickSelect` on the same arguments:
every partition step and every evaluation of `pivotIdx - 1`. -/
def Median.deterministicQuickSelectEvents :
    Nat → List Int → Nat → Nat → Nat → RandSrc → List Event
  | 0, _, _, _, _, _ => []
  | fuel + 1, arr, low, high, k, g =>
    if low = high then []
    else
      match Median.deterministic_partition arr low high g with
      | (.error _, _, _) => Median.deterministicPartitionEvents arr low high g
      | (.ok pivotIdx, a1, g1) =>
        if k = pivotIdx then Median.deterministicPartitionEvents arr low high g
        else if k < pivotIdx then
          Median.deterministicPartitionEvents arr low high g ++ .predecessor pivotIdx ::
            Median.deterministicQuickSelectEvents fuel a1 low (pivotIdx - 1) k g1
        else
          Median.deterministicPartitionEvents arr low high g ++
            Median.deterministicQuickSelectEvents fuel a1 (pivotIdx + 1) high k g1

/-- The partition step made by `Median.random_partition` on these arguments,
with the pivot index it computes. -/
def Median.randomPartitionEvents (arr : List Int) (low high : Nat) (g : RandSrc) :
    List Event :=
  match uniformRandomPivot arr low (high - low + 1) g with
  | (.error _, _, _) => []
  | (.ok p, a1, _) => [.partitionCall low high (p + low) a1.length]

/-- The observations of `Median.randomQuickSelect` on the same arguments. -/
def Median.randomQuickSelectEvents :
    Nat → List Int → Nat → Nat → Nat → RandSrc → List Event
  | 0, _, _, _, _, _ => []
  | fuel + 1, arr, low, high, k, g =>
    if low = high then []
    else
      match Median.random_partition arr low high g with
      | (.error _, _, _) => Median.randomPartitionEvents arr low high g
      | (.ok pivotIdx, a1, g1) =>
        if k = pivotIdx then Median.randomPartitionEvents arr low high g
        else if k < pivotIdx then
          Median.randomPartitionEvents arr low high g ++ .predecessor pivotIdx ::
            Median.randomQuickSelectEvents fuel a1 low (pivotIdx - 1) k g1
        else
          Median.randomPartitionEvents arr low high g ++
            Median.randomQuickSelectEvents fuel a1 (pivotIdx + 1) high k g1

/-- The partition step made by `Quicksort.partition` on these arguments, with
the pivot index it computes. -/
def Quicksort.partitionEvents (v : List Int) (pivotFunction : Pivot_f) (left right : Nat)
    (g : RandSrc) : List Event :=
  match pivotFunction v left (right - left + 1) g with
  | (.error _, _, _) => []
  | (.ok p, v1, _) => [.partitionCall left right (p + left) v1.length]

/-- The observations of `Quicksort.quickSort` on the same arguments: every
partition step and every evaluation of `pivotIndex - 1`, the left recursive
call before the right one. -/
def Quicksort.quickSortEvents (pivotFunction : Pivot_f) :
    Nat → List Int → Nat → Nat → RandSrc → List Event
  | 0, _, _, _, _ => []
  | fuel + 1, v, left, right, g =>
    if left < right then
      match Quicksort.partition v pivotFunction left right g with
      | (.error _, _, _) => Quicksort.partitionEvents v pivotFunction left right g
      | (.ok pivotIndex, v1, g1) =>
        Quicksort.partitionEvents v pivotFunction left right g ++
          (if left < pivotIndex then
            .predecessor pivotIndex ::
              Quicksort.quickSortEvents pivotFunction fuel v1 left (pivotIndex - 1) g1
           else []) ++
          (match (if left < pivotIndex then
                    Quicksort.quickSort pivotFunction fuel v1 left (pivotIndex - 1) g1
                  else (.ok (), v1, g1)) with
           | (.error _, _, _) => []
           | (.ok _, v2, g2) =>
             if pivotIndex < right then
               Quicksort.quickSortEvents pivotFunction fuel v2 (pivotIndex + 1) right g2
             else [])
    else []

/-- A recursive call made by `quickSort`: the call on the range `[left, right]`,
whose partition step left the pivot at `pivotIndex`, calls itself on the range
`[subLeft, subRight]`. -/
structure Quicksort.RecursiveCall where
  left : Nat
  right : Nat
  pivotIndex : Nat
  subLeft : Nat
  subRight : Nat
  deriving DecidableEq, Repr

/-- The recursive call is made on a strictly shorter range inside the current
one, and the pivot's resting position, which lies in the current range, is not
in the sub-range. -/
def Quicksort.RecursiveCall.Shrinks (c : Quicksort.RecursiveCall) : Prop :=
  c.left ≤ c.subLeft ∧ c.subLeft ≤ c.subRight ∧ c.subRight ≤ c.right ∧
    c.subRight - c.subLeft < c.right - c.left ∧
    c.left ≤ c.pivotIndex ∧ c.pivotIndex ≤ c.right ∧
    (c.pivotIndex < c.subLeft ∨ c.subRight < c.pivotIndex)

/-- The recursive calls of `Quicksort.quickSort` on the same arguments, those of
the whole call tree, the left subtree before the right one. -/
def Quicksort.quickSortCalls (pivotFunction : Pivot_f) :
    Nat → List Int → Nat → Nat → RandSrc → List Quicksort.RecursiveCall
  | 0, _, _, _, _ => []
  | fuel + 1, v, left, right, g =>
    if left < right then
      match Quicksort.partition v pivotFunction left right g with
      | (.error _, _, _) => []
      | (.ok pivotIndex, v1, g1) =>
        (if left < pivotIndex then
          { left := left, right := right, pivotIndex := pivotIndex, subLeft := left,
            subRight := pivotIndex - 1 } ::
            Quicksort.quickSortCalls pivotFunction fuel v1 left (pivotIndex - 1) g1
         else []) ++
          (match (if left < pivotIndex then
                    Quicksort.quickSort pivotFunction fuel v1 left (pivotIndex - 1) g1
                  else (.ok (), v1, g1)) with
           | (.error _, _, _) => []
           | (.ok _, v2, g2) =>
             if pivotIndex < right then
               { left := left, right := right, pivotIndex := pivotIndex,
                 subLeft := pivotIndex + 1, subRight := right } ::
                 Quicksort.quickSortCalls pivotFunction fuel v2 (pivotIndex + 1) right g2
             else [])
    else []

/-! ## Exchanges of two positions -/

theorem length_swap (a : List Int) (i j : Nat) : (swap a i j).length = a.length := by
  simp [swap]

theorem getD_swap (a : List Int) (i j k : Nat) (hi : i < a.length) (hj : j < a.length) :
    (swap a i j).getD k 0 =
      if k = j then a.getD i 0 else if k = i then a.getD j 0 else a.getD k 0 := by
  unfold swap
  simp only [List.getD_eq_getElem?_getD, List.getElem?_set, List.length_set]
  by_cases h1 : k = j
  · subst h1
    simp [hj]
  · by_cases h2 : k = i
    · subst h2
      simp [hi, h1, Ne.symm h1]
    · simp [h1, h2, Ne.symm h1, Ne.symm h2]

theorem swap_comm (a : List Int) (i j : Nat) : swap a i j = swap a j i := by
  unfold swap
  by_cases h : i = j
  · subst h; rfl
  · exact List.set_comm _ _ _ h

theorem swap_self (a : List Int) (i : Nat) : swap a i i = a := by
  unfold swap
  by_cases h : i < a.length
  · apply List.ext_getElem?
    intro k
    simp only [List.getElem?_set, List.length_set, List.getD_eq_getElem?_getD]
    by_cases hk : i = k
    · subst hk; simp [h]
    · simp [hk]
  · rw [List.set_eq_of_length_le (by simp; omega), List.set_eq_of_length_le (by omega)]

theorem swap_perm (a : List Int) (i j : Nat) (hi : i < a.length) (hj : j < a.length) :
    (swap a i j).Perm a := by
  rw [List.perm_iff_count]
  intro b
  unfold swap
  have e1 : a.getD j 0 = a[j] := List.getD_eq_getElem _ _ hj
  have e2 : a.getD i 0 = a[i] := List.getD_eq_getElem _ _ hi
  rw [e1, e2, List.count_set _ _ _ _ (by simpa using hj), List.count_set _ _ _ _ hi]
  have c1 : (if a[i] == b then 1 else 0) ≤ a.count b := by
    by_cases h : a[i] = b
    · simp only [h, beq_self_eq_true, if_true]
      exact List.count_pos_iff.mpr (h ▸ List.getElem_mem _)
    · simp [h]
  have hj2 : j < (a.set i a[j]).length := by simpa using hj
  have e3 : (a.set i a[j])[j] = a[j] := by
    rw [List.getElem_set]
    split <;> simp_all
  rw [e3]
  omega

/-! ## Reordering inside a window -/

theorem WinPerm.length_eq {lo hi : Nat} {a b : List Int} (h : WinPerm lo hi a b) :
    b.length = a.length := by
  induction h with
  | refl => rfl
  | step i j _ _ _ _ _ _ _ ih => rw [length_swap, ih]

theorem WinPerm.perm {lo hi : Nat} {a b : List Int} (h : WinPerm lo hi a b) : b.Perm a := by
  induction h with
  | refl => exact List.Perm.refl _
  | step i j _ _ _ _ _ hi hj ih => exact (swap_perm _ i j hi hj).trans ih

theorem WinPerm.outside {lo hi : Nat} {a b : List Int} (h : WinPerm lo hi a b) (k : Nat)
    (hk : k < lo ∨ hi ≤ k) : b.getD k 0 = a.getD k 0 := by
  induction h with
  | refl => rfl
  | step i j _ _ _ _ _ hi hj ih =>
    rw [getD_swap _ i j k hi hj, if_neg (by omega), if_neg (by omega), ih]

theorem WinPerm.inside {lo hi : Nat} {a b : List Int} (h : WinPerm lo hi a b) (P : Int → Prop)
    (hP : ∀ k, lo ≤ k → k < hi → P (a.getD k 0)) : ∀ k, lo ≤ k → k < hi → P (b.getD k 0) := by
  induction h with
  | refl => exact hP
  | step i j _ h1 h2 h3 h4 hi hj ih =>
    intro k hk1 hk2
    rw [getD_swap _ i j k hi hj]
    split
    · exact ih i h1 h2
    · split
      · exact ih j h3 h4
      · exact ih k hk1 hk2

theorem WinPerm.mono {lo hi lo2 hi2 : Nat} {a b : List Int} (h : WinPerm lo hi a b)
    (h1 : lo2 ≤ lo) (h2 : hi ≤ hi2) : WinPerm lo2 hi2 a b := by
  induction h with
  | refl => exact WinPerm.refl _
  | step i j _ _ _ _ _ hi hj ih =>
    exact WinPerm.step i j ih (by omega) (by omega) (by omega) (by omega) hi hj

theorem WinPerm.trans {lo hi : Nat} {a b c : List Int} (h1 : WinPerm lo hi a b)
    (h2 : WinPerm lo hi b c) : WinPerm lo hi a c := by
  induction h2 with
  | refl => exact h1
  | step i j _ a1 a2 a3 a4 hi hj ih => exact WinPerm.step i j ih a1 a2 a3 a4 hi hj

theorem WinPerm.swap_in {lo hi : Nat} (a : List Int) (i j : Nat) (h1 : lo ≤ i) (h2 : i < hi)
    (h3 : lo ≤ j) (h4 : j < hi) (hi2 : i < a.length) (hj2 : j < a.length) :
    WinPerm lo hi a (swap a i j) :=
  WinPerm.step i j (WinPerm.refl a) h1 h2 h3 h4 hi2 hj2

theorem WinPerm.splitAt_lo {lo hi : Nat} {a b : List Int} (h : WinPerm lo hi a b)
    (hs : SplitAt a lo) (hhi : hi ≤ a.length) : SplitAt b lo := by
  intro i j hi1 hj1 hj2
  rw [h.length_eq] at hj2
  rw [h.outside i (Or.inl hi1)]
  by_cases hj3 : j < hi
  · exact h.inside (fun x => a.getD i 0 ≤ x) (fun k hk1 hk2 => hs i k hi1 hk1 (by omega)) j hj1 hj3
  · rw [h.outside j (Or.inr (by omega))]
    exact hs i j hi1 hj1 hj2

theorem WinPerm.splitAt_hi {lo hi : Nat} {a b : List Int} (h : WinPerm lo hi a b)
    (hs : SplitAt a hi) : SplitAt b hi := by
  intro i j hi1 hj1 hj2
  rw [h.length_eq] at hj2
  rw [h.outside j (Or.inr (by omega))]
  by_cases hi3 : lo ≤ i
  · exact h.inside (fun x => x ≤ a.getD j 0) (fun k _ hk2 => hs k j hk2 hj1 hj2) i hi3 hi1
  · rw [h.outside i (Or.inl (by omega))]
    exact hs i j hi1 hj1 hj2

/-! ## The Lomuto partition of `task2-c-kth-order-statistics.cpp` -/

theorem KthOrder.partitionLoop_spec (pv : Int) (low high : Nat) :
    ∀ (steps j i : Nat) (arr : List Int), j + steps = high → low ≤ i → i ≤ j →
      high < arr.length →
      (∀ x, low ≤ x → x < i → arr.getD x 0 < pv) →
      (∀ x, i ≤ x → x < j → pv ≤ arr.getD x 0) →
      ∃ i2 arr2, KthOrder.partitionLoop pv steps j i arr = (i2, arr2) ∧ i ≤ i2 ∧ i2 ≤ high ∧
        WinPerm low high arr arr2 ∧
        (∀ x, low ≤ x → x < i2 → arr2.getD x 0 < pv) ∧
        (∀ x, i2 ≤ x → x < high → pv ≤ arr2.getD x 0) := by
  intro steps
  induction steps with
  | zero =>
    intro j i arr hj hlo hij hlen hlt hge
    refine ⟨i, arr, rfl, le_refl _, by omega, WinPerm.refl _, hlt, ?_⟩
    intro x h1 h2
    exact hge x h1 (by omega)
  | succ s ih =>
    intro j i arr hj hlo hij hlen hlt hge
    unfold KthOrder.partitionLoop
    by_cases hc : arr.getD j 0 < pv
    · rw [if_pos hc]
      have hi2 : i < arr.length := by omega
      have hj2 : j < arr.length := by omega
      obtain ⟨i2, arr2, e, b1, b2, w, l2, g2⟩ :=
        ih (j + 1) (i + 1) (swap arr i j) (by omega) (by omega) (by omega)
          (by rw [length_swap]; exact hlen)
          (by
            intro x h1 h2
            rw [getD_swap _ i j x hi2 hj2]
            by_cases hx : x = i
            · subst hx
              by_cases hxj : x = j
              · rw [if_pos hxj]; subst hxj; exact hc
              · rw [if_neg hxj, if_pos rfl]; exact hc
            · rw [if_neg (by omega), if_neg hx]
              exact hlt x h1 (by omega))
          (by
            intro x h1 h2
            rw [getD_swap _ i j x hi2 hj2]
            by_cases hxj : x = j
            · rw [if_pos hxj]
              by_cases hij2 : i = j
              · omega
              · exact hge i (le_refl _) (by omega)
            · rw [if_neg hxj, if_neg (by omega)]
              exact hge x (by omega) (by omega))
      exact ⟨i2, arr2, e, by omega, b2,
        (WinPerm.swap_in arr i j hlo (by omega) (by omega) (by omega) hi2 hj2).trans w, l2, g2⟩
    · rw [if_neg hc]
      obtain ⟨i2, arr2, e, b1, b2, w, l2, g2⟩ :=
        ih (j + 1) i arr (by omega) hlo (by omega) hlen hlt
          (by
            intro x h1 h2
            by_cases hxj : x = j
            · subst hxj; exact not_lt.mp hc
            · exact hge x h1 (by omega))
      exact ⟨i2, arr2, e, b1, b2, w, l2, g2⟩

theorem KthOrder.partition_spec (arr : List Int) (low high pivotIndex : Nat)
    (h1 : low ≤ pivotIndex) (h2 : pivotIndex ≤ high) (h3 : high < arr.length) :
    ∃ r arr2, KthOrder.partition arr low high pivotIndex = (r, arr2) ∧ low ≤ r ∧ r ≤ high ∧
      WinPerm low (high + 1) arr arr2 ∧ arr2.getD r 0 = arr.getD pivotIndex 0 ∧
      (∀ x, low ≤ x → x < r → arr2.getD x 0 < arr.getD pivotIndex 0) ∧
      (∀ x, r < x → x ≤ high → arr.getD pivotIndex 0 ≤ arr2.getD x 0) := by
  have hp : pivotIndex < arr.length := by omega
  obtain ⟨i2, a2, e, b1, b2, w, l2, g2⟩ :=
    KthOrder.partitionLoop_spec (arr.getD pivotIndex 0) low high (high - low) low low
      (swap arr pivotIndex high) (by omega) (le_refl _) (le_refl _)
      (by rw [length_swap]; exact h3) (by intro x a b; omega) (by intro x a b; omega)
  have hlen : a2.length = arr.length := by rw [w.length_eq, length_swap]
  have ehigh : a2.getD high 0 = arr.getD pivotIndex 0 := by
    rw [w.outside high (Or.inr (le_refl _)), getD_swap _ pivotIndex high high hp h3, if_pos rfl]
  refine ⟨i2, swap a2 i2 high, ?_, b1, b2, ?_, ?_, ?_, ?_⟩
  · unfold KthOrder.partition
    simp only [e]
  · exact ((WinPerm.swap_in arr pivotIndex high h1 (by omega) (by omega) (by omega) hp h3).trans
      (w.mono (le_refl _) (by omega))).trans
      (WinPerm.swap_in a2 i2 high b1 (by omega) (by omega) (by omega) (by omega) (by omega))
  · rw [getD_swap _ i2 high i2 (by omega) (by omega)]
    by_cases hh : i2 = high
    · rw [if_pos hh, ← ehigh, hh]
    · rw [if_neg hh, if_pos rfl, ehigh]
  · intro x a b
    rw [getD_swap _ i2 high x (by omega) (by omega), if_neg (by omega), if_neg (by omega)]
    exact l2 x a b
  · intro x a b
    rw [getD_swap _ i2 high x (by omega) (by omega)]
    by_cases hh : x = high
    · rw [if_pos hh]
      exact g2 i2 (le_refl _) (by omega)
    · rw [if_neg hh, if_neg (by omega)]
      exact g2 x (by omega) (by omega)

/-! ## Order statistics of a partitioned buffer -/

theorem sortedCopy_perm (v : List Int) : (sortedCopy v).Perm v :=
  List.perm_insertionSort _ v

theorem sortedCopy_sorted (v : List Int) : (sortedCopy v).Sorted (· ≤ ·) :=
  List.sorted_insertionSort _ v

theorem selected_sorted (v : List Int) (p : Nat) (hp : p < v.length) (hs : Selected v p)
    (s : List Int) (hperm : s.Perm v) (hsort : s.Sorted (· ≤ ·)) :
    s.getD p 0 = v.getD p 0 := by
  have hx : v.getD p 0 = v[p] := List.getD_eq_getElem _ _ hp
  have hsplit : v = v.take p ++ v[p] :: v.drop (p + 1) := by
    rw [List.getElem_cons_drop _ _ hp, List.take_append_drop]
  have hL : ∀ a ∈ sortedCopy (v.take p), a ≤ v[p] := by
    intro a ha
    have ha2 : a ∈ v.take p := (sortedCopy_perm _).mem_iff.mp ha
    obtain ⟨i, hi, rfl⟩ := List.mem_iff_getElem.mp ha2
    have hi2 : i < p := by
      have := List.length_take_le p v
      omega
    have hi3 : i < v.length := by omega
    have := hs.1 i hi2
    rw [hx, List.getD_eq_getElem _ _ hi3] at this
    rw [List.getElem_take]
    exact this
  have hR : ∀ b ∈ sortedCopy (v.drop (p + 1)), v[p] ≤ b := by
    intro b hb
    have hb2 : b ∈ v.drop (p + 1) := (sortedCopy_perm _).mem_iff.mp hb
    obtain ⟨i, hi, rfl⟩ := List.mem_iff_getElem.mp hb2
    have hi2 : p + 1 + i < v.length := by
      rw [List.length_drop] at hi
      omega
    have := hs.2 (p + 1 + i) (by omega) hi2
    rw [hx, List.getD_eq_getElem _ _ hi2] at this
    rw [List.getElem_drop]
    exact this
  have ht : (sortedCopy (v.take p) ++ v[p] :: sortedCopy (v.drop (p + 1))).Sorted (· ≤ ·) := by
    unfold List.Sorted
    rw [List.pairwise_append]
    refine ⟨sortedCopy_sorted _, ?_, ?_⟩
    · rw [List.pairwise_cons]
      exact ⟨hR, sortedCopy_sorted _⟩
    · intro a ha b hb
      rcases List.mem_cons.mp hb with h | h
      · rw [h]; exact hL a ha
      · exact le_trans (hL a ha) (hR b h)
  have hp2 : (sortedCopy (v.take p) ++ v[p] :: sortedCopy (v.drop (p + 1))).Perm v := by
    conv => rhs; rw [hsplit]
    exact List.Perm.append (sortedCopy_perm _) (List.Perm.cons _ (sortedCopy_perm _))
  have heq : s = sortedCopy (v.take p) ++ v[p] :: sortedCopy (v.drop (p + 1)) :=
    List.eq_of_perm_of_sorted (hperm.trans hp2.symm) hsort ht
  have hlen : (sortedCopy (v.take p)).length = p := by
    rw [(sortedCopy_perm _).length_eq, List.length_take]
    omega
  rw [hx, heq, List.getD_eq_getElem?_getD, List.getElem?_append_right (by omega), hlen]
  simp

theorem splitAt_of_partitioned (v : List Int) (lo hi r : Nat) (pv : Int)
    (h1 : SplitAt v lo) (h2 : SplitAt v (hi + 1)) (hlo : lo ≤ r) (hhi : r ≤ hi)
    (hlen : hi < v.length) (hr : v.getD r 0 = pv)
    (hlt : ∀ x, lo ≤ x → x < r → v.getD x 0 < pv)
    (hge : ∀ x, r < x → x ≤ hi → pv ≤ v.getD x 0) :
    SplitAt v r ∧ SplitAt v (r + 1) ∧ Selected v r := by
  have key : ∀ i j, i ≤ r → r ≤ j → j < v.length → v.getD i 0 ≤ v.getD j 0 := by
    intro i j hi1 hj1 hj2
    by_cases a : hi < j
    · exact h2 i j (by omega) (by omega) hj2
    · by_cases b : i < lo
      · exact h1 i j b (by omega) hj2
      · have e1 : v.getD i 0 ≤ pv := by
          by_cases c : i = r
          · rw [c, hr]
          · exact le_of_lt (hlt i (by omega) (by omega))
        have e2 : pv ≤ v.getD j 0 := by
          by_cases c : j = r
          · rw [c, hr]
          · exact hge j (by omega) (by omega)
        exact le_trans e1 e2
  refine ⟨?_, ?_, ?_, ?_⟩
  · intro i j a b c; exact key i j (by omega) b c
  · intro i j a b c; exact key i j (by omega) (by omega) c
  · intro i a; exact key i r (by omega) (le_refl _) (by omega)
  · intro i a b; exact key r i (le_refl _) (by omega) b

theorem splitAt_zero (v : List Int) : SplitAt v 0 := by
  intro i j h; omega

theorem splitAt_length (v : List Int) (b : Nat) (h : v.length ≤ b) : SplitAt v b := by
  intro i j _ h2 h3; omega

/-! ## The selection loop of `quickSelect` -/

theorem KthOrder.quickSelectLoop_spec (pf : Pivot_f) (L : Nat) (hpf : GoodPivot L pf) (k : Int) :
    ∀ (fuel : Nat) (v : List Int) (left right : Int) (g : RandSrc),
      v.length = L → 0 ≤ left → left ≤ k - 1 → k - 1 ≤ right → right < L →
      SplitAt v left.toNat → SplitAt v (right.toNat + 1) →
      ((KthOrder.quickSelectLoop pf k fuel v left right g).1 = .error .out_of_fuel ∧
          fuel < (right - left + 1).toNat) ∨
        ∃ v2 g2, KthOrder.quickSelectLoop pf k fuel v left right g
            = (.ok (v2.getD (k - 1).toNat 0), v2, g2) ∧
          WinPerm left.toNat (right.toNat + 1) v v2 ∧ Selected v2 (k - 1).toNat := by
  intro fuel
  induction fuel with
  | zero =>
    intro v left right g hL h0 hl hr hR s1 s2
    left
    exact ⟨rfl, by omega⟩
  | succ fuel ih =>
    intro v left right g hL h0 hl hr hR s1 s2
    unfold KthOrder.quickSelectLoop
    rw [if_pos (by omega : left ≤ right)]
    obtain ⟨i, v1, g1, e1, hi, w1⟩ :=
      hpf v left.toNat (right - left + 1).toNat g hL (by omega) (by omega)
    have hw1 : WinPerm left.toNat (right.toNat + 1) v v1 := by
      have e : left.toNat + (right - left + 1).toNat = right.toNat + 1 := by omega
      rw [e] at w1
      exact w1
    have hL1 : v1.length = L := by rw [hw1.length_eq, hL]
    obtain ⟨r, v2, e2, b1, b2, w2, er, hlt, hge⟩ :=
      KthOrder.partition_spec v1 left.toNat right.toNat (left.toNat + i) (by omega) (by omega)
        (by omega)
    have hw : WinPerm left.toNat (right.toNat + 1) v v2 := hw1.trans w2
    have hL2 : v2.length = L := by rw [hw.length_eq, hL]
    have t1 : SplitAt v2 left.toNat := hw.splitAt_lo s1 (by omega)
    have t2 : SplitAt v2 (right.toNat + 1) := hw.splitAt_hi s2
    obtain ⟨u1, u2, u3⟩ := splitAt_of_partitioned v2 left.toNat right.toNat r _ t1 t2 b1 b2
      (by omega) er hlt hge
    simp only [e1, e2]
    by_cases c1 : (r : Int) = k - 1
    · rw [if_pos c1]
      right
      have e : (k - 1).toNat = r := by omega
      exact ⟨v2, g1, by rw [e], hw, by rw [e]; exact u3⟩
    · rw [if_neg c1]
      by_cases c2 : (r : Int) > k - 1
      · rw [if_pos c2]
        have e : ((r : Int) - 1).toNat + 1 = r := by omega
        rcases ih v2 left ((r : Int) - 1) g1 hL2 h0 hl (by omega) (by omega) t1
            (by rw [e]; exact u1) with ⟨o1, o2⟩ | ⟨v3, g3, e3, w3, sel⟩
        · left
          exact ⟨o1, by omega⟩
        · right
          exact ⟨v3, g3, e3, hw.trans (w3.mono (le_refl _) (by omega)), sel⟩
      · rw [if_neg c2]
        have e : ((r : Int) + 1).toNat = r + 1 := by omega
        rcases ih v2 ((r : Int) + 1) right g1 hL2 (by omega) (by omega) hr hR
            (by rw [e]; exact u2) t2 with ⟨o1, o2⟩ | ⟨v3, g3, e3, w3, sel⟩
        · left
          exact ⟨o1, by omega⟩
        · right
          exact ⟨v3, g3, e3, hw.trans (w3.mono (by omega) (le_refl _)), sel⟩

theorem PurePivot.good {pf : Pivot_f} (h : PurePivot pf) (L : Nat) : GoodPivot L pf := by
  intro buf off n g hL hn hoff
  obtain ⟨i, g1, e, hi⟩ := h buf off n g hn (by omega)
  exact ⟨i, buf, g1, e, hi, WinPerm.refl _⟩

theorem deterministicPivot_pure : PurePivot deterministicPivot := by
  intro buf off n g hn _
  refine ⟨0, g, ?_, hn⟩
  unfold deterministicPivot
  rw [if_neg (by omega)]

theorem uniformRandomPivot_pure : PurePivot uniformRandomPivot := by
  intro buf off n g hn _
  refine ⟨g 0 % n, (rand g).2, ?_, Nat.mod_lt _ hn⟩
  unfold uniformRandomPivot
  rw [if_neg (by omega)]
  rfl

theorem KthOrder.quickSelect_spec (pf : Pivot_f) (v : List Int) (hpf : GoodPivot v.length pf)
    (k : Int) (fuel : Nat) (g : RandSrc) (hk1 : 1 ≤ k) (hk2 : k ≤ v.length) :
    ((KthOrder.quickSelect fuel v k (some pf) g).1 = .error .out_of_fuel ∧ fuel < v.length) ∨
      ∃ v2 g2, KthOrder.quickSelect fuel v k (some pf) g
          = (.ok ((sortedCopy v).getD (k - 1).toNat 0), v2, g2) ∧
        v2.Perm v ∧ v2.getD (k - 1).toNat 0 = (sortedCopy v).getD (k - 1).toNat 0 ∧
        Selected v2 (k - 1).toNat := by
  have hne : ¬ (v.isEmpty = true ∨ k ≤ 0 ∨ k > (v.length : Int)) := by
    rintro (h | h | h)
    · rw [List.isEmpty_iff] at h
      subst h
      simp at hk2
      omega
    · omega
    · omega
  unfold KthOrder.quickSelect
  simp only [if_neg hne]
  rcases KthOrder.quickSelectLoop_spec pf v.length hpf k fuel v 0 ((v.length : Int) - 1) g rfl
      (le_refl _) (by omega) (by omega) (by omega) (splitAt_zero v)
      (splitAt_length v _ (by omega)) with ⟨o1, o2⟩ | ⟨v2, g2, e, w, sel⟩
  · left
    exact ⟨o1, by omega⟩
  · right
    have hs := selected_sorted v2 (k - 1).toNat (by rw [w.length_eq]; omega) sel (sortedCopy v)
      ((sortedCopy_perm v).trans w.perm.symm) (sortedCopy_sorted v)
    exact ⟨v2, g2, by rw [e, hs], w.perm, hs.symm, sel⟩

/-! ## The partition and recursion of `task3-quicksort.cpp` -/

theorem Quicksort.storeLoop_eq_partitionLoop (pv : Int) :
    ∀ (steps i s : Nat) (v : List Int),
      Quicksort.partitionLoop pv steps i s v = KthOrder.partitionLoop pv steps i s v := by
  intro steps
  induction steps with
  | zero => intro i s v; rfl
  | succ n ih =>
    intro i s v
    unfold Quicksort.partitionLoop KthOrder.partitionLoop
    rw [ih, ih, swap_comm v i s]

theorem Quicksort.partition_eq_kth (v : List Int) (pf : Pivot_f) (left right : Nat) (g : RandSrc)
    (p : Nat) (v1 : List Int) (g1 : RandSrc)
    (e : pf v left (right - left + 1) g = (.ok p, v1, g1)) :
    Quicksort.partition v pf left right g
      = (.ok (KthOrder.partition v1 left right (p + left)).1,
          (KthOrder.partition v1 left right (p + left)).2, g1) := by
  unfold Quicksort.partition KthOrder.partition
  simp only [e, Quicksort.storeLoop_eq_partitionLoop]

theorem Quicksort.partition_with_pivot_spec (L : Nat) (pf : Pivot_f) (hpf : GoodPivot L pf) (v : List Int)
    (left right : Nat) (g : RandSrc) (hL : v.length = L) (h1 : left ≤ right) (h2 : right < L) :
    ∃ r v2 g2, Quicksort.partition v pf left right g = (.ok r, v2, g2) ∧ left ≤ r ∧ r ≤ right ∧
      WinPerm left (right + 1) v v2 ∧
      (∀ x, left ≤ x → x < r → v2.getD x 0 < v2.getD r 0) ∧
      (∀ x, r < x → x ≤ right → v2.getD r 0 ≤ v2.getD x 0) := by
  obtain ⟨p, v1, g1, e1, hp, w1⟩ := hpf v left (right - left + 1) g hL (by omega) (by omega)
  have e : left + (right - left + 1) = right + 1 := by omega
  rw [e] at w1
  obtain ⟨r, v2, e2, b1, b2, w2, er, hlt, hge⟩ :=
    KthOrder.partition_spec v1 left right (p + left) (by omega) (by omega)
      (by rw [w1.length_eq]; omega)
  refine ⟨r, v2, g1, ?_, b1, b2, w1.trans w2, ?_, ?_⟩
  · rw [Quicksort.partition_eq_kth v pf left right g p v1 g1 e1, e2]
  · intro x a b; rw [er]; exact hlt x a b
  · intro x a b; rw [er]; exact hge x a b

theorem Quicksort.quickSort_spec (L : Nat) (pf : Pivot_f) (hpf : GoodPivot L pf) :
    ∀ (fuel : Nat) (v : List Int) (left right : Nat) (g : RandSrc),
      v.length = L → right < L → right - left + 1 ≤ fuel →
      ∃ v2 g2, Quicksort.quickSort pf fuel v left right g = (.ok (), v2, g2) ∧
        WinPerm left (right + 1) v v2 ∧ SortedOn v2 left (right + 1) := by
  intro fuel
  induction fuel with
  | zero => intro v left right g _ _ hf; omega
  | succ fuel ih =>
    intro v left right g hL hr hf
    unfold Quicksort.quickSort
    by_cases hlr : left < right
    · rw [if_pos hlr]
      obtain ⟨r, v1, g1, e1, b1, b2, w1, hlt, hge⟩ :=
        Quicksort.partition_with_pivot_spec L pf hpf v left right g hL (by omega) hr
      have hL1 : v1.length = L := by rw [w1.length_eq, hL]
      simp only [e1]
      -- the left recursive call, on `[left, r)`
      have hA : ∃ v2 g2, (if left < r then Quicksort.quickSort pf fuel v1 left (r - 1) g1
          else (Except.ok (), v1, g1)) = (.ok (), v2, g2) ∧
          WinPerm left r v1 v2 ∧ SortedOn v2 left r := by
        by_cases c : left < r
        · rw [if_pos c]
          obtain ⟨v2, g2, e2, w2, s2⟩ := ih v1 left (r - 1) g1 hL1 (by omega) (by omega)
          have e : r - 1 + 1 = r := by omega
          rw [e] at w2 s2
          exact ⟨v2, g2, e2, w2, s2⟩
        · rw [if_neg c]
          refine ⟨v1, g1, rfl, WinPerm.refl _, ?_⟩
          intro i j a b d
          omega
      obtain ⟨v2, g2, e2, w2, s2⟩ := hA
      have hL2 : v2.length = L := by rw [w2.length_eq, hL1]
      simp only [e2]
      -- the right recursive call, on `[r + 1, right]`
      have hB : ∃ v3 g3, (if r < right then Quicksort.quickSort pf fuel v2 (r + 1) right g2
          else (Except.ok (), v2, g2)) = (.ok (), v3, g3) ∧
          WinPerm (r + 1) (right + 1) v2 v3 ∧ SortedOn v3 (r + 1) (right + 1) := by
        by_cases c : r < right
        · rw [if_pos c]
          exact ih v2 (r + 1) right g2 hL2 hr (by omega)
        · rw [if_neg c]
          refine ⟨v2, g2, rfl, WinPerm.refl _, ?_⟩
          intro i j a b d
          omega
      obtain ⟨v3, g3, e3, w3, s3⟩ := hB
      refine ⟨v3, g3, e3, ?_, ?_⟩
      · exact (w1.trans (w2.mono (le_refl _) (by omega))).trans (w3.mono (by omega) (le_refl _))
      · -- the pivot value stays at `r`, smaller values before it, the others after it
        have er2 : v2.getD r 0 = v1.getD r 0 := w2.outside r (Or.inr (le_refl _))
        have er3 : v3.getD r 0 = v1.getD r 0 := by
          rw [w3.outside r (Or.inl (by omega)), er2]
        have lo3 : ∀ x, left ≤ x → x < r → v3.getD x 0 < v1.getD r 0 := by
          intro x a b
          rw [w3.outside x (Or.inl (by omega))]
          exact w2.inside (fun y => y < v1.getD r 0) hlt x a b
        have hi3 : ∀ x, r + 1 ≤ x → x < right + 1 → v1.getD r 0 ≤ v3.getD x 0 := by
          apply w3.inside (fun y => v1.getD r 0 ≤ y)
          intro x a b
          rw [w2.outside x (Or.inr (by omega))]
          exact hge x (by omega) (by omega)
        have s2b : SortedOn v3 left r := by
          intro i j a b d
          rw [w3.outside i (Or.inl (by omega)), w3.outside j (Or.inl (by omega))]
          exact s2 i j a b d
        intro i j a b d
        by_cases c1 : j < r
        · exact s2b i j a b c1
        · by_cases c2 : r < i
          · exact s3 i j (by omega) b d
          · have f1 : v3.getD i 0 ≤ v1.getD r 0 := by
              by_cases c3 : i = r
              · rw [c3, er3]
              · exact le_of_lt (lo3 i a (by omega))
            have f2 : v1.getD r 0 ≤ v3.getD j 0 := by
              by_cases c3 : j = r
              · rw [c3, er3]
              · exact hi3 j (by omega) d
            exact le_trans f1 f2
    · rw [if_neg hlr]
      refine ⟨v, g, rfl, WinPerm.refl _, ?_⟩
      intro i j a b d
      have : i = j := by omega
      rw [this]

theorem sortedOn_all (v : List Int) (h : SortedOn v 0 v.length) : v.Sorted (· ≤ ·) := by
  unfold List.Sorted
  rw [List.pairwise_iff_getElem]
  intro i j hi hj hij
  have := h i j (Nat.zero_le _) (le_of_lt hij) hj
  rw [List.getD_eq_getElem _ _ hi, List.getD_eq_getElem _ _ hj] at this
  exact this

theorem Quicksort.sort_spec (pf : Pivot_f) (v : List Int) (hpf : GoodPivot v.length pf)
    (fuel : Nat) (g : RandSrc) (hf : v.length ≤ fuel) :
    ∃ v2 g2, Quicksort.quickSortSimplePivot fuel v pf g = (.ok (), v2, g2) ∧
      Quicksort.quickSortMedianPivot fuel v pf g = (.ok (), v2, g2) ∧
      v2.Perm v ∧ v2.Sorted (· ≤ ·) := by
  unfold Quicksort.quickSortSimplePivot Quicksort.quickSortMedianPivot
  by_cases he : v.isEmpty = true
  · rw [if_pos he]
    rw [List.isEmpty_iff] at he
    subst he
    exact ⟨[], g, rfl, rfl, List.Perm.refl _, List.sorted_nil⟩
  · rw [if_neg he]
    have hne : v ≠ [] := by
      intro h; apply he; rw [List.isEmpty_iff]; exact h
    have hpos : 0 < v.length := List.length_pos.mpr hne
    obtain ⟨v2, g2, e, w, s⟩ :=
      Quicksort.quickSort_spec v.length pf hpf fuel v 0 (v.length - 1) g rfl (by omega) (by omega)
    have e1 : v.length - 1 + 1 = v.length := by omega
    rw [e1] at w s
    refine ⟨v2, g2, e, e, w.perm, sortedOn_all v2 ?_⟩
    rw [w.length_eq]
    exact s

/-! ## The median pivot strategies of `task3-quicksort.cpp` -/

theorem Quicksort.medianScan_spec (off left right pivotIndex : Nat) :
    ∀ (steps i pni : Nat) (buf : List Int), i + steps = right + 1 → left ≤ pni → pni < i →
      off + right < buf.length →
      ∃ pni2 buf2, Quicksort.medianScan off pivotIndex steps i pni buf = (pni2, buf2) ∧
        pni ≤ pni2 ∧ pni2 ≤ right ∧ WinPerm (off + left) (off + right + 1) buf buf2 := by
  intro steps
  induction steps with
  | zero =>
    intro i pni buf h1 h2 h3 h4
    exact ⟨pni, buf, rfl, le_refl _, by omega, WinPerm.refl _⟩
  | succ s ih =>
    intro i pni buf h1 h2 h3 h4
    unfold Quicksort.medianScan
    by_cases c : buf.getD (off + i) 0 < buf.getD (off + pivotIndex) 0
    · rw [if_pos c]
      obtain ⟨pni2, buf2, e, a1, a2, w⟩ :=
        ih (i + 1) (pni + 1) (swap buf (off + i) (off + pni)) (by omega) (by omega) (by omega)
          (by rw [length_swap]; exact h4)
      exact ⟨pni2, buf2, e, by omega, a2,
        (WinPerm.swap_in buf (off + i) (off + pni) (by omega) (by omega) (by omega) (by omega)
          (by omega) (by omega)).trans w⟩
    · rw [if_neg c]
      obtain ⟨pni2, buf2, e, a1, a2, w⟩ := ih (i + 1) pni buf (by omega) h2 (by omega) h4
      exact ⟨pni2, buf2, e, a1, a2, w⟩

theorem Quicksort.medianLoop_spec (off target : Nat) :
    ∀ (fuel left right : Nat) (buf : List Int), left ≤ target → target ≤ right →
      off + right < buf.length → right - left + 1 ≤ fuel →
      ∃ buf2 t, Quicksort.medianLoop off target fuel left right buf = (.ok target, buf2, t) ∧
        WinPerm (off + left) (off + right + 1) buf buf2 ∧
        (left, right) ∈ t ∧ ∀ p ∈ t, p.1 ≤ target ∧ target ≤ p.2 := by
  intro fuel
  induction fuel with
  | zero => intro left right buf _ _ _ hf; omega
  | succ fuel ih =>
    intro left right buf h1 h2 h3 hf
    unfold Quicksort.medianLoop
    by_cases c : left < right
    · rw [if_pos c]
      obtain ⟨pni, buf1, e, a1, a2, w⟩ :=
        Quicksort.medianScan_spec off left right left (right - left) (left + 1) left buf
          (by omega) (le_refl _) (by omega) h3
      have hlen : buf1.length = buf.length := w.length_eq
      have w2 : WinPerm (off + left) (off + right + 1) buf
          (swap buf1 (off + left) (off + pni)) :=
        w.trans (WinPerm.swap_in buf1 (off + left) (off + pni) (by omega) (by omega) (by omega)
          (by omega) (by omega) (by omega))
      simp only [e]
      by_cases c1 : pni = target
      · rw [if_pos c1]
        refine ⟨_, _, by rw [c1], w2, List.mem_singleton.mpr rfl, ?_⟩
        intro p hp
        rw [List.mem_singleton.mp hp]
        exact ⟨h1, h2⟩
      · rw [if_neg c1]
        by_cases c2 : pni < target
        · rw [if_pos c2]
          obtain ⟨buf3, t, e3, w3, m3, inv⟩ :=
            ih (pni + 1) right (swap buf1 (off + left) (off + pni)) (by omega) h2
              (by rw [length_swap]; omega) (by omega)
          simp only [e3]
          refine ⟨buf3, _, rfl, w2.trans (w3.mono (by omega) (le_refl _)),
            List.mem_cons_self _ _, ?_⟩
          intro p hp
          rcases List.mem_cons.mp hp with h | h
          · rw [h]; exact ⟨h1, h2⟩
          · exact inv p h
        · rw [if_neg c2]
          obtain ⟨buf3, t, e3, w3, m3, inv⟩ :=
            ih left (pni - 1) (swap buf1 (off + left) (off + pni)) h1 (by omega)
              (by rw [length_swap]; omega) (by omega)
          simp only [e3]
          refine ⟨buf3, _, rfl, w2.trans (w3.mono (le_refl _) (by omega)),
            List.mem_cons_self _ _, ?_⟩
          intro p hp
          rcases List.mem_cons.mp hp with h | h
          · rw [h]; exact ⟨h1, h2⟩
          · exact inv p h
    · rw [if_neg c]
      have e : left = target := by omega
      refine ⟨buf, _, by rw [e], WinPerm.refl _, List.mem_singleton.mpr rfl, ?_⟩
      intro p hp
      rw [List.mem_singleton.mp hp]
      exact ⟨h1, h2⟩

theorem Quicksort.deterministicMedianPivot_spec (fuel : Nat) (buf : List Int) (off n : Nat)
    (g : RandSrc) (hn : 0 < n) (hv : off + n ≤ buf.length) (hf : n ≤ fuel) :
    ∃ buf2, Quicksort.deterministicMedianPivot fuel buf off n g = (.ok (n / 2), buf2, g) ∧
      WinPerm off (off + n) buf buf2 := by
  obtain ⟨buf2, t, e, w, _, _⟩ :=
    Quicksort.medianLoop_spec off (n / 2) fuel 0 (n - 1) buf (Nat.zero_le _) (by omega)
      (by omega) (by omega)
  have e1 : off + (n - 1) + 1 = off + n := by omega
  rw [e1, Nat.add_zero] at w
  refine ⟨buf2, ?_, w⟩
  unfold Quicksort.deterministicMedianPivot
  rw [if_neg (by omega)]
  simp only [e]

theorem Quicksort.deterministicMedianPivot_good (fuel L : Nat) (h : L ≤ fuel) :
    GoodPivot L (Quicksort.deterministicMedianPivot fuel) := by
  intro buf off n g hL hn hoff
  obtain ⟨buf2, e, w⟩ :=
    Quicksort.deterministicMedianPivot_spec fuel buf off n g hn (by omega) (by omega)
  exact ⟨n / 2, buf2, g, e, Nat.div_lt_self hn (by omega), w⟩

theorem Quicksort.uniformRandomMedianPivot_spec (buf : List Int) (off n : Nat) (g : RandSrc)
    (hn : 0 < n) :
    Quicksort.uniformRandomMedianPivot buf off n g
      = (.ok (n - 1), swap buf (off + g 0 % n) (off + (n - 1)), (rand g).2) := by
  unfold Quicksort.uniformRandomMedianPivot
  rw [if_neg (by omega)]
  rfl

theorem Quicksort.uniformRandomMedianPivot_good (L : Nat) :
    GoodPivot L Quicksort.uniformRandomMedianPivot := by
  intro buf off n g hL hn hoff
  have hr : g 0 % n < n := Nat.mod_lt _ hn
  refine ⟨n - 1, _, _, Quicksort.uniformRandomMedianPivot_spec buf off n g hn, by omega, ?_⟩
  exact WinPerm.swap_in buf _ _ (by omega) (by omega) (by omega) (by omega) (by omega) (by omega)

/-! ## The scan of `task2-a-min-max-element.cpp` -/

theorem minMaxLoop_spec (v : List Int) :
    ∀ (steps i : Nat) (mn mx : Int), i + steps = v.length →
      (∃ a, a < v.length ∧ v.getD a 0 = mn) → (∃ b, b < v.length ∧ v.getD b 0 = mx) →
      (∀ x, x < i → mn ≤ v.getD x 0 ∧ v.getD x 0 ≤ mx) → mn ≤ mx →
      (∃ a, a < v.length ∧ v.getD a 0 = (minMaxLoop v steps i mn mx).1) ∧
      (∃ b, b < v.length ∧ v.getD b 0 = (minMaxLoop v steps i mn mx).2) ∧
      (∀ x, x < v.length →
        (minMaxLoop v steps i mn mx).1 ≤ v.getD x 0 ∧ v.getD x 0 ≤ (minMaxLoop v steps i mn mx).2) ∧
      (minMaxLoop v steps i mn mx).1 ≤ (minMaxLoop v steps i mn mx).2 := by
  intro steps
  induction steps with
  | zero =>
    intro i mn mx h1 h2 h3 h4 h5
    unfold minMaxLoop
    refine ⟨h2, h3, ?_, h5⟩
    intro x hx
    exact h4 x (by omega)
  | succ s ih =>
    intro i mn mx h1 h2 h3 h4 h5
    unfold minMaxLoop
    by_cases c1 : v.getD i 0 < mn
    · rw [if_pos c1]
      apply ih (i + 1) (v.getD i 0) mx (by omega) ⟨i, by omega, rfl⟩ h3 _ (by omega)
      intro x hx
      by_cases hxi : x = i
      · subst hxi; exact ⟨le_refl _, by omega⟩
      · have := h4 x (by omega)
        exact ⟨by omega, this.2⟩
    · rw [if_neg c1]
      by_cases c2 : v.getD i 0 > mx
      · rw [if_pos c2]
        apply ih (i + 1) mn (v.getD i 0) (by omega) h2 ⟨i, by omega, rfl⟩ _ (by omega)
        intro x hx
        by_cases hxi : x = i
        · subst hxi; exact ⟨by omega, le_refl _⟩
        · have := h4 x (by omega)
          exact ⟨this.1, by omega⟩
      · rw [if_neg c2]
        apply ih (i + 1) mn mx (by omega) h2 h3 _ h5
        intro x hx
        by_cases hxi : x = i
        · subst hxi; exact ⟨by omega, by omega⟩
        · exact h4 x (by omega)

theorem getD_mem (v : List Int) (a : Nat) (h : a < v.length) : v.getD a 0 ∈ v := by
  rw [List.getD_eq_getElem _ _ h]
  exact List.getElem_mem _

/-! ## Selection and median of `task2-b-median.cpp` -/

theorem Median.partitionLoop_eq_kth (pv : Int) :
    ∀ (steps j i : Nat) (arr : List Int),
      Median.partitionLoop pv steps j i arr = KthOrder.partitionLoop pv steps j i arr := by
  intro steps
  induction steps with
  | zero => intro j i arr; rfl
  | succ n ih =>
    intro j i arr
    unfold Median.partitionLoop KthOrder.partitionLoop
    rw [ih, ih]

theorem Median.deterministic_partition_eq (arr : List Int) (low high : Nat) (g : RandSrc) :
    Median.deterministic_partition arr low high g
      = (.ok (KthOrder.partition arr low high low).1, (KthOrder.partition arr low high low).2, g) := by
  unfold Median.deterministic_partition KthOrder.partition deterministicPivot
  simp only [Median.partitionLoop_eq_kth]
  rw [if_neg (by omega)]
  simp only [Nat.zero_add]

theorem Median.random_partition_eq (arr : List Int) (low high : Nat) (g : RandSrc) :
    Median.random_partition arr low high g
      = (.ok (KthOrder.partition arr low high (g 0 % (high - low + 1) + low)).1,
          (KthOrder.partition arr low high (g 0 % (high - low + 1) + low)).2, (rand g).2) := by
  unfold Median.random_partition KthOrder.partition uniformRandomPivot
  simp only [Median.partitionLoop_eq_kth]
  rw [if_neg (by omega)]
  rfl

theorem Median.deterministicQuickSelect_spec :
    ∀ (fuel : Nat) (arr : List Int) (low high k : Nat) (g : RandSrc), low ≤ k → k ≤ high →
      high < arr.length → SplitAt arr low → SplitAt arr (high + 1) → high - low + 1 ≤ fuel →
      ∃ arr2 g2, Median.deterministicQuickSelect fuel arr low high k g
          = (.ok (arr2.getD k 0), arr2, g2) ∧
        WinPerm low (high + 1) arr arr2 ∧ Selected arr2 k := by
  intro fuel
  induction fuel with
  | zero => intro arr low high k g _ _ _ _ _ hf; omega
  | succ fuel ih =>
    intro arr low high k g h1 h2 h3 s1 s2 hf
    unfold Median.deterministicQuickSelect
    by_cases c : low = high
    · rw [if_pos c]
      have ek : k = low := by omega
      refine ⟨arr, g, by rw [ek], WinPerm.refl _, ?_, ?_⟩
      · intro i hi
        exact s1 i k (by omega) (by omega) (by omega)
      · intro i hi hi2
        exact s2 k i (by omega) (by omega) hi2
    · rw [if_neg c]
      obtain ⟨r, a1, e1, b1, b2, w, er, hlt, hge⟩ :=
        KthOrder.partition_spec arr low high low (le_refl _) (by omega) h3
      have hlen : a1.length = arr.length := w.length_eq
      have t1 : SplitAt a1 low := w.splitAt_lo s1 (by omega)
      have t2 : SplitAt a1 (high + 1) := w.splitAt_hi s2
      obtain ⟨u1, u2, u3⟩ := splitAt_of_partitioned a1 low high r _ t1 t2 b1 b2 (by omega) er
        hlt hge
      rw [Median.deterministic_partition_eq, e1]
      simp only []
      by_cases c1 : k = r
      · rw [if_pos c1]
        exact ⟨a1, g, by rw [c1], w, by rw [c1]; exact u3⟩
      · rw [if_neg c1]
        by_cases c2 : k < r
        · rw [if_pos c2]
          have e : r - 1 + 1 = r := by omega
          obtain ⟨a2, g2, e2, w2, sel⟩ := ih a1 low (r - 1) k g h1 (by omega) (by omega) t1
            (by rw [e]; exact u1) (by omega)
          exact ⟨a2, g2, e2, w.trans (w2.mono (le_refl _) (by omega)), sel⟩
        · rw [if_neg c2]
          obtain ⟨a2, g2, e2, w2, sel⟩ := ih a1 (r + 1) high k g (by omega) h2 (by omega) u2 t2
            (by omega)
          exact ⟨a2, g2, e2, w.trans (w2.mono (by omega) (le_refl _)), sel⟩

theorem Median.randomQuickSelect_spec :
    ∀ (fuel : Nat) (arr : List Int) (low high k : Nat) (g : RandSrc), low ≤ k → k ≤ high →
      high < arr.length → SplitAt arr low → SplitAt arr (high + 1) → high - low + 1 ≤ fuel →
      ∃ arr2 g2, Median.randomQuickSelect fuel arr low high k g
          = (.ok (arr2.getD k 0), arr2, g2) ∧
        WinPerm low (high + 1) arr arr2 ∧ Selected arr2 k := by
  intro fuel
  induction fuel with
  | zero => intro arr low high k g _ _ _ _ _ hf; omega
  | succ fuel ih =>
    intro arr low high k g h1 h2 h3 s1 s2 hf
    unfold Median.randomQuickSelect
    by_cases c : low = high
    · rw [if_pos c]
      have ek : k = low := by omega
      refine ⟨arr, g, by rw [ek], WinPerm.refl _, ?_, ?_⟩
      · intro i hi
        exact s1 i k (by omega) (by omega) (by omega)
      · intro i hi hi2
        exact s2 k i (by omega) (by omega) hi2
    · rw [if_neg c]
      have hm : g 0 % (high - low + 1) < high - low + 1 := Nat.mod_lt _ (by omega)
      obtain ⟨r, a1, e1, b1, b2, w, er, hlt, hge⟩ :=
        KthOrder.partition_spec arr low high (g 0 % (high - low + 1) + low) (by omega) (by omega)
          h3
      have hlen : a1.length = arr.length := w.length_eq
      have t1 : SplitAt a1 low := w.splitAt_lo s1 (by omega)
      have t2 : SplitAt a1 (high + 1) := w.splitAt_hi s2
      obtain ⟨u1, u2, u3⟩ := splitAt_of_partitioned a1 low high r _ t1 t2 b1 b2 (by omega) er
        hlt hge
      rw [Median.random_partition_eq, e1]
      simp only []
      by_cases c1 : k = r
      · rw [if_pos c1]
        exact ⟨a1, _, by rw [c1], w, by rw [c1]; exact u3⟩
      · rw [if_neg c1]
        by_cases c2 : k < r
        · rw [if_pos c2]
          have e : r - 1 + 1 = r := by omega
          obtain ⟨a2, g2, e2, w2, sel⟩ := ih a1 low (r - 1) k _ h1 (by omega) (by omega) t1
            (by rw [e]; exact u1) (by omega)
          exact ⟨a2, g2, e2, w.trans (w2.mono (le_refl _) (by omega)), sel⟩
        · rw [if_neg c2]
          obtain ⟨a2, g2, e2, w2, sel⟩ := ih a1 (r + 1) high k _ (by omega) h2 (by omega) u2 t2
            (by omega)
          exact ⟨a2, g2, e2, w.trans (w2.mono (by omega) (le_refl _)), sel⟩

/-- Two successive selections on the working copy give the two order statistics. -/
theorem Median.select_sorted (sel : Nat → List Int → Nat → Nat → Nat → RandSrc →
      Except Error Int × List Int × RandSrc)
    (hsel : ∀ (fuel : Nat) (arr : List Int) (low high k : Nat) (g : RandSrc), low ≤ k →
      k ≤ high → high < arr.length → SplitAt arr low → SplitAt arr (high + 1) →
      high - low + 1 ≤ fuel →
      ∃ arr2 g2, sel fuel arr low high k g = (.ok (arr2.getD k 0), arr2, g2) ∧
        WinPerm low (high + 1) arr arr2 ∧ Selected arr2 k)
    (v arr : List Int) (hp : arr.Perm v) (fuel k : Nat) (g : RandSrc) (hk : k < v.length)
    (hf : v.length ≤ fuel) :
    ∃ arr2 g2, sel fuel arr 0 (v.length - 1) k g = (.ok ((sortedCopy v).getD k 0), arr2, g2) ∧
      arr2.Perm v := by
  have hl : arr.length = v.length := hp.length_eq
  obtain ⟨arr2, g2, e, w, s⟩ := hsel fuel arr 0 (v.length - 1) k g (Nat.zero_le _) (by omega)
    (by omega) (splitAt_zero _) (splitAt_length _ _ (by omega)) (by omega)
  have hs := selected_sorted arr2 k (by rw [w.length_eq]; omega) s (sortedCopy v)
    ((sortedCopy_perm v).trans (hp.symm.trans w.perm.symm)) (sortedCopy_sorted v)
  exact ⟨arr2, g2, by rw [e, hs], w.perm.trans hp⟩

/-! ## Claims -/

/-- C1: for a vector `v`, a rank `1 ≤ k ≤ len(v)` (so `v` is non-empty) and a
pivot strategy that returns an index of the window it is given and leaves the
data alone, `quickSelect(v, k, pivot)` returns the element at 0-based index
`k - 1` of `v` sorted ascending; this holds in particular for
`deterministicPivot` and for `uniformRandomPivot` with any outcome of the random
source. -/
theorem quickSelect_kth_smallest (v : List Int) (k : Int) (fuel : Nat) (g : RandSrc)
    (hk1 : 1 ≤ k) (hk2 : k ≤ (v.length : Int)) (hf : v.length ≤ fuel) :
    (∀ pf : Pivot_f, PurePivot pf →
      (KthOrder.quickSelect fuel v k (some pf) g).1
        = .ok ((sortedCopy v).getD (k - 1).toNat 0)) ∧
    (KthOrder.quickSelect fuel v k (some deterministicPivot) g).1
      = .ok ((sortedCopy v).getD (k - 1).toNat 0) ∧
    (KthOrder.quickSelect fuel v k (some uniformRandomPivot) g).1
      = .ok ((sortedCopy v).getD (k - 1).toNat 0) := by
  have main : ∀ pf : Pivot_f, PurePivot pf →
      (KthOrder.quickSelect fuel v k (some pf) g).1
        = .ok ((sortedCopy v).getD (k - 1).toNat 0) := by
    intro pf hpf
    rcases KthOrder.quickSelect_spec pf v (hpf.good _) k fuel g hk1 hk2 with
      ⟨_, o2⟩ | ⟨v2, g2, e, _⟩
    · omega
    · rw [e]
  exact ⟨main, main _ deterministicPivot_pure, main _ uniformRandomPivot_pure⟩

theorem quickSelect_kth_smallest_witness :
    ((1 : Int) ≤ 2 ∧ (2 : Int) ≤ (([3, 2, 5, 4] : List Int).length : Int) ∧
      ([3, 2, 5, 4] : List Int).length ≤ 4) ∧
    (KthOrder.quickSelect 4 [3, 2, 5, 4] 2 (some deterministicPivot) (fun _ => 0)).1 = .ok 3 ∧
    (KthOrder.quickSelect 4 [5, 7, 6, 5] 2 (some deterministicPivot) (fun _ => 0)).1 = .ok 5 ∧
    (KthOrder.quickSelect 5 [4, 5, 6, 0, 2] 1 (some deterministicPivot) (fun _ => 0)).1 = .ok 0 ∧
    (KthOrder.quickSelect 5 [4, 5, 6, 0, 2] 1 (some uniformRandomPivot) (fun i => 3 * i + 1)).1
      = .ok 0 :=
  ⟨⟨by decide, by decide, by decide⟩,
   (quickSelect_kth_smallest [3, 2, 5, 4] 2 4 (fun _ => 0) (by decide) (by decide)
      (by decide)).2.1,
   (quickSelect_kth_smallest [5, 7, 6, 5] 2 4 (fun _ => 0) (by decide) (by decide)
      (by decide)).2.1,
   (quickSelect_kth_smallest [4, 5, 6, 0, 2] 1 5 (fun _ => 0) (by decide) (by decide)
      (by decide)).2.1,
   (quickSelect_kth_smallest [4, 5, 6, 0, 2] 1 5 (fun i => 3 * i + 1) (by decide) (by decide)
      (by decide)).2.2⟩

/-- C2: for every `v`, the empty one included, `quickSortSimplePivot(v, pivot)`
with `deterministicPivot` or with `uniformRandomPivot` (any outcome of the random
source) returns normally and leaves `v` a permutation of its original contents
in non-decreasing order. -/
theorem quickSortSimplePivot_sorts (v : List Int) (fuel : Nat) (g : RandSrc)
    (hf : v.length ≤ fuel) :
    ((Quicksort.quickSortSimplePivot fuel v deterministicPivot g).1 = .ok () ∧
      (Quicksort.quickSortSimplePivot fuel v deterministicPivot g).2.1.Perm v ∧
      (Quicksort.quickSortSimplePivot fuel v deterministicPivot g).2.1.Sorted (· ≤ ·)) ∧
    ((Quicksort.quickSortSimplePivot fuel v uniformRandomPivot g).1 = .ok () ∧
      (Quicksort.quickSortSimplePivot fuel v uniformRandomPivot g).2.1.Perm v ∧
      (Quicksort.quickSortSimplePivot fuel v uniformRandomPivot g).2.1.Sorted (· ≤ ·)) := by
  obtain ⟨a, ga, ea, _, pa, sa⟩ :=
    Quicksort.sort_spec deterministicPivot v (deterministicPivot_pure.good _) fuel g hf
  obtain ⟨b, gb, eb, _, pb, sb⟩ :=
    Quicksort.sort_spec uniformRandomPivot v (uniformRandomPivot_pure.good _) fuel g hf
  rw [ea, eb]
  exact ⟨⟨rfl, pa, sa⟩, ⟨rfl, pb, sb⟩⟩

theorem quickSortSimplePivot_sorts_witness :
    ([5, 3, 1, 4, 2] : List Int).length ≤ 5 ∧
    (Quicksort.quickSortSimplePivot 5 [5, 3, 1, 4, 2] deterministicPivot (fun _ => 0)).2.1
      = [1, 2, 3, 4, 5] ∧
    ((Quicksort.quickSortSimplePivot 5 [5, 3, 1, 4, 2] deterministicPivot (fun _ => 0)).1 = .ok () ∧
      (Quicksort.quickSortSimplePivot 5 [5, 3, 1, 4, 2] deterministicPivot
        (fun _ => 0)).2.1.Perm [5, 3, 1, 4, 2] ∧
      (Quicksort.quickSortSimplePivot 5 [5, 3, 1, 4, 2] deterministicPivot
        (fun _ => 0)).2.1.Sorted (· ≤ ·)) :=
  ⟨by decide, by decide,
    (quickSortSimplePivot_sorts [5, 3, 1, 4, 2] 5 (fun _ => 0) (by decide)).1⟩

/-- C3: for every `v`, the empty one included, `quickSortMedianPivot(v, pivot)`
with `deterministicMedianPivot` or with `uniformRandomMedianPivot` (any outcome
of the random source) returns normally and leaves `v` a permutation of its
original contents in non-decreasing order, although these strategies reorder
the window they are given before the partition step runs. -/
theorem quickSortMedianPivot_sorts (v : List Int) (fuel pivotFuel : Nat) (g : RandSrc)
    (hf : v.length ≤ fuel) (hpf : v.length ≤ pivotFuel) :
    ((Quicksort.quickSortMedianPivot fuel v (Quicksort.deterministicMedianPivot pivotFuel) g).1
        = .ok () ∧
      (Quicksort.quickSortMedianPivot fuel v
        (Quicksort.deterministicMedianPivot pivotFuel) g).2.1.Perm v ∧
      (Quicksort.quickSortMedianPivot fuel v
        (Quicksort.deterministicMedianPivot pivotFuel) g).2.1.Sorted (· ≤ ·)) ∧
    ((Quicksort.quickSortMedianPivot fuel v Quicksort.uniformRandomMedianPivot g).1 = .ok () ∧
      (Quicksort.quickSortMedianPivot fuel v Quicksort.uniformRandomMedianPivot g).2.1.Perm v ∧
      (Quicksort.quickSortMedianPivot fuel v
        Quicksort.uniformRandomMedianPivot g).2.1.Sorted (· ≤ ·)) := by
  obtain ⟨a, ga, _, ea, pa, sa⟩ :=
    Quicksort.sort_spec (Quicksort.deterministicMedianPivot pivotFuel) v
      (Quicksort.deterministicMedianPivot_good _ _ hpf) fuel g hf
  obtain ⟨b, gb, _, eb, pb, sb⟩ :=
    Quicksort.sort_spec Quicksort.uniformRandomMedianPivot v
      (Quicksort.uniformRandomMedianPivot_good _) fuel g hf
  rw [ea, eb]
  exact ⟨⟨rfl, pa, sa⟩, ⟨rfl, pb, sb⟩⟩

theorem quickSortMedianPivot_sorts_witness :
    ([5, 3, 1, 4, 2] : List Int).length ≤ 5 ∧
    (Quicksort.quickSortMedianPivot 5 [5, 3, 1, 4, 2] (Quicksort.deterministicMedianPivot 5)
      (fun _ => 0)).2.1 = [1, 2, 3, 4, 5] ∧
    (Quicksort.quickSortMedianPivot 5 [5, 3, 1, 4, 2] Quicksort.uniformRandomMedianPivot
      (fun i => 3 * i + 1)).2.1 = [1, 2, 3, 4, 5] ∧
    (Quicksort.quickSortMedianPivot 5 [5, 3, 1, 4, 2] (Quicksort.deterministicMedianPivot 5)
      (fun _ => 0)).2.1.Sorted (· ≤ ·) :=
  ⟨by decide, by decide, by decide,
    (quickSortMedianPivot_sorts [5, 3, 1, 4, 2] 5 5 (fun _ => 0) (by decide) (by decide)).1.2.2⟩

/-- C4: for every non-empty `v`, `medianDeterministicPivot(v)` and
`medianUniformRandomPivot(v)` (any outcome of the random source) return the
statistical median of `v` as an exact rational: with `s` the sorted copy and `n`
the length, `s[n/2]` for odd `n` and `(s[n/2 - 1] + s[n/2]) / 2` for even `n`. -/
theorem median_is_statistical_median (v : List Int) (fuel : Nat) (g : RandSrc) (hv : v ≠ [])
    (hf : v.length ≤ fuel) :
    (Median.medianDeterministicPivot fuel v g).1 = .ok (statMedian v) ∧
    (Median.medianUniformRandomPivot fuel v g).1 = .ok (statMedian v) := by
  have hpos : 0 < v.length := List.length_pos.mpr hv
  have he : ¬ (v.isEmpty = true) := by
    rw [List.isEmpty_iff]; exact hv
  have key : ∀ sel : Nat → List Int → Nat → Nat → Nat → RandSrc →
      Except Error Int × List Int × RandSrc,
      (∀ (fuel : Nat) (arr : List Int) (low high k : Nat) (g : RandSrc), low ≤ k →
        k ≤ high → high < arr.length → SplitAt arr low → SplitAt arr (high + 1) →
        high - low + 1 ≤ fuel →
        ∃ arr2 g2, sel fuel arr low high k g = (.ok (arr2.getD k 0), arr2, g2) ∧
          WinPerm low (high + 1) arr arr2 ∧ Selected arr2 k) →
      (v.length % 2 = 0 →
        ∃ arr1 g1 arr2 g2,
          sel fuel v 0 (v.length - 1) (v.length / 2 - 1) g
            = (.ok ((sortedCopy v).getD (v.length / 2 - 1) 0), arr1, g1) ∧
          sel fuel arr1 0 (v.length - 1) (v.length / 2) g1
            = (.ok ((sortedCopy v).getD (v.length / 2) 0), arr2, g2)) ∧
      (∃ arr1 g1, sel fuel v 0 (v.length - 1) (v.length / 2) g
            = (.ok ((sortedCopy v).getD (v.length / 2) 0), arr1, g1)) := by
    intro sel hsel
    constructor
    · intro _
      obtain ⟨arr1, g1, e1, p1⟩ := Median.select_sorted sel hsel v v (List.Perm.refl _) fuel
        (v.length / 2 - 1) g (by omega) hf
      obtain ⟨arr2, g2, e2, _⟩ := Median.select_sorted sel hsel v arr1 p1 fuel
        (v.length / 2) g1 (by omega) hf
      exact ⟨arr1, g1, arr2, g2, e1, e2⟩
    · obtain ⟨arr1, g1, e1, _⟩ := Median.select_sorted sel hsel v v (List.Perm.refl _) fuel
        (v.length / 2) g (by omega) hf
      exact ⟨arr1, g1, e1⟩
  obtain ⟨kd1, kd2⟩ := key _ Median.deterministicQuickSelect_spec
  obtain ⟨kr1, kr2⟩ := key _ Median.randomQuickSelect_spec
  unfold Median.medianDeterministicPivot Median.medianUniformRandomPivot statMedian
  simp only [if_neg he]
  by_cases hpar : v.length % 2 = 0
  · obtain ⟨a1, g1, a2, g2, e1, e2⟩ := kd1 hpar
    obtain ⟨b1, h1, b2, h2, f1, f2⟩ := kr1 hpar
    rw [if_pos hpar, if_pos hpar, if_neg (by omega)]
    simp only [e1, e2, f1, f2]
    exact ⟨trivial, trivial⟩
  · obtain ⟨a1, g1, e1⟩ := kd2
    obtain ⟨b1, h1, f1⟩ := kr2
    rw [if_neg hpar, if_neg hpar, if_pos (by omega)]
    simp only [e1, f1]
    exact ⟨trivial, trivial⟩

theorem median_is_statistical_median_witness :
    (([1] : List Int) ≠ [] ∧ ([1] : List Int).length ≤ 1) ∧
    (Median.medianDeterministicPivot 1 [1] (fun _ => 0)).1 = .ok 1 ∧
    (Median.medianDeterministicPivot 2 [1, 2] (fun _ => 0)).1 = .ok (3 / 2) ∧
    (Median.medianDeterministicPivot 3 [3, 4, 4] (fun _ => 0)).1 = .ok 4 ∧
    (Median.medianUniformRandomPivot 2 [1, 2] (fun i => 3 * i + 1)).1 = .ok (3 / 2) := by
  have e1 : statMedian [1] = 1 := by norm_num [statMedian, sortedCopy]
  have e2 : statMedian [1, 2] = 3 / 2 := by norm_num [statMedian, sortedCopy]
  have e3 : statMedian [3, 4, 4] = 4 := by norm_num [statMedian, sortedCopy]
  refine ⟨⟨by decide, by decide⟩, ?_, ?_, ?_, ?_⟩
  · rw [← e1]
    exact (median_is_statistical_median [1] 1 (fun _ => 0) (by decide) (by decide)).1
  · rw [← e2]
    exact (median_is_statistical_median [1, 2] 2 (fun _ => 0) (by decide) (by decide)).1
  · rw [← e3]
    exact (median_is_statistical_median [3, 4, 4] 3 (fun _ => 0) (by decide) (by decide)).1
  · rw [← e2]
    exact (median_is_statistical_median [1, 2] 2 (fun i => 3 * i + 1) (by decide) (by decide)).2

/-- C5: for every non-empty `v`, `minMaxElement(v)` returns a pair `(m, M)` in
which `m` is the least and `M` the greatest element of `v`: both occur in `v`,
every element of `v` lies between them, and `m ≤ M`. -/
theorem minMaxElement_least_greatest (v : List Int) (hv : v ≠ []) :
    ∃ m M, minMaxElement v = .ok (m, M) ∧ m ∈ v ∧ M ∈ v ∧ (∀ x ∈ v, m ≤ x ∧ x ≤ M) ∧ m ≤ M := by
  have hpos : 0 < v.length := List.length_pos.mpr hv
  have he : ¬ (v.isEmpty = true) := by
    rw [List.isEmpty_iff]; exact hv
  obtain ⟨⟨a, ha, ea⟩, ⟨b, hb, eb⟩, hall, hle⟩ :=
    minMaxLoop_spec v (v.length - 1) 1 (v.getD 0 0) (v.getD 0 0) (by omega) ⟨0, hpos, rfl⟩
      ⟨0, hpos, rfl⟩
      (by
        intro x hx
        have : x = 0 := by omega
        subst this
        exact ⟨le_refl _, le_refl _⟩)
      (le_refl _)
  refine ⟨_, _, ?_, ?_, ?_, ?_, hle⟩
  · unfold minMaxElement
    rw [if_neg he]
  · rw [← ea]; exact getD_mem v a ha
  · rw [← eb]; exact getD_mem v b hb
  · intro x hx
    obtain ⟨i, hi, rfl⟩ := List.mem_iff_getElem.mp hx
    have := hall i hi
    rw [List.getD_eq_getElem _ _ hi] at this
    exact this

theorem minMaxElement_least_greatest_witness :
    ([1, 5, 10, 100] : List Int) ≠ [] ∧ minMaxElement [1, 5, 10, 100] = .ok (1, 100) ∧
    ∃ m M, minMaxElement [1, 5, 10, 100] = .ok (m, M) ∧ m ∈ ([1, 5, 10, 100] : List Int) ∧
      M ∈ ([1, 5, 10, 100] : List Int) ∧ (∀ x ∈ ([1, 5, 10, 100] : List Int), m ≤ x ∧ x ≤ M) ∧
      m ≤ M :=
  ⟨by decide, by decide, minMaxElement_least_greatest [1, 5, 10, 100] (by decide)⟩

/-- C6: for a buffer `arr` and indices `low ≤ pivotIndex ≤ high < len(arr)`,
`partition(arr, low, high, pivotIndex)` returns an index `r` with
`low ≤ r ≤ high`; afterwards the buffer has its length unchanged, position `r`
holds the original `arr[pivotIndex]`, every position `low ≤ j < r` holds a
strictly smaller value and every position `r < j ≤ high` a value that is
greater or equal. -/
theorem partition_lomuto_post (arr : List Int) (low high pivotIndex : Nat)
    (h1 : low ≤ pivotIndex) (h2 : pivotIndex ≤ high) (h3 : high < arr.length) :
    low ≤ (KthOrder.partition arr low high pivotIndex).1 ∧
    (KthOrder.partition arr low high pivotIndex).1 ≤ high ∧
    (KthOrder.partition arr low high pivotIndex).2.length = arr.length ∧
    (KthOrder.partition arr low high pivotIndex).2.getD
        (KthOrder.partition arr low high pivotIndex).1 0 = arr.getD pivotIndex 0 ∧
    (∀ j, low ≤ j → j < (KthOrder.partition arr low high pivotIndex).1 →
      (KthOrder.partition arr low high pivotIndex).2.getD j 0 < arr.getD pivotIndex 0) ∧
    (∀ j, (KthOrder.partition arr low high pivotIndex).1 < j → j ≤ high →
      arr.getD pivotIndex 0 ≤ (KthOrder.partition arr low high pivotIndex).2.getD j 0) := by
  obtain ⟨r, arr2, e, b1, b2, w, er, hlt, hge⟩ :=
    KthOrder.partition_spec arr low high pivotIndex h1 h2 h3
  rw [e]
  exact ⟨b1, b2, w.length_eq, er, hlt, hge⟩

theorem partition_lomuto_post_witness :
    ((0 : Nat) ≤ 3 ∧ (3 : Nat) ≤ 4 ∧ 4 < ([5, 3, 1, 4, 2] : List Int).length) ∧
    KthOrder.partition [5, 3, 1, 4, 2] 0 4 3 = (3, [3, 1, 2, 4, 5]) ∧
    (KthOrder.partition [5, 3, 1, 4, 2] 0 4 3).2.getD
        (KthOrder.partition [5, 3, 1, 4, 2] 0 4 3).1 0 = ([5, 3, 1, 4, 2] : List Int).getD 3 0 :=
  ⟨⟨by decide, by decide, by decide⟩, by decide,
    (partition_lomuto_post [5, 3, 1, 4, 2] 0 4 3 (by decide) (by decide) (by decide)).2.2.2.1⟩

/-- C7: on a buffer view of length `n > 0`, each of the four pivot strategies
(`deterministicPivot`, `uniformRandomPivot`, `deterministicMedianPivot`,
`uniformRandomMedianPivot`, the random ones for any outcome of the random
source) returns an index `i` with `0 ≤ i ≤ n - 1`. -/
theorem pivot_index_in_view (buf : List Int) (off n fuel : Nat) (g : RandSrc) (hn : 0 < n)
    (hv : off + n ≤ buf.length) (hf : n ≤ fuel) :
    (∃ i, (deterministicPivot buf off n g).1 = .ok i ∧ 0 ≤ i ∧ i ≤ n - 1) ∧
    (∃ i, (uniformRandomPivot buf off n g).1 = .ok i ∧ 0 ≤ i ∧ i ≤ n - 1) ∧
    (∃ i, (Quicksort.deterministicMedianPivot fuel buf off n g).1 = .ok i ∧ 0 ≤ i ∧ i ≤ n - 1) ∧
    (∃ i, (Quicksort.uniformRandomMedianPivot buf off n g).1 = .ok i ∧ 0 ≤ i ∧ i ≤ n - 1) := by
  obtain ⟨i1, g1, e1, h1⟩ := deterministicPivot_pure buf off n g hn hv
  obtain ⟨i2, g2, e2, h2⟩ := uniformRandomPivot_pure buf off n g hn hv
  obtain ⟨b3, e3, _⟩ := Quicksort.deterministicMedianPivot_spec fuel buf off n g hn hv hf
  have e4 := Quicksort.uniformRandomMedianPivot_spec buf off n g hn
  rw [e1, e2, e3, e4]
  exact ⟨⟨i1, rfl, Nat.zero_le _, by omega⟩, ⟨i2, rfl, Nat.zero_le _, by omega⟩,
    ⟨n / 2, rfl, Nat.zero_le _, by omega⟩, ⟨n - 1, rfl, Nat.zero_le _, le_refl _⟩⟩

theorem pivot_index_in_view_witness :
    ((0 : Nat) < 3 ∧ 1 + 3 ≤ ([9, 2, 1, 3, 7] : List Int).length ∧ (3 : Nat) ≤ 3) ∧
    (∃ i, (Quicksort.deterministicMedianPivot 3 [9, 2, 1, 3, 7] 1 3 (fun _ => 0)).1 = .ok i ∧
      0 ≤ i ∧ i ≤ 3 - 1) :=
  ⟨⟨by decide, by decide, by decide⟩,
    (pivot_index_in_view [9, 2, 1, 3, 7] 1 3 3 (fun _ => 0) (by decide) (by decide)
      (by decide)).2.2.1⟩

/-- C8 (the code departs from it): on the subarray `[2, 1, 3]` the call
`deterministicMedianPivot(data, 3)` returns index `1` and leaves the data as
`[2, 1, 3]`, so the element at the returned index is `1`, while the median
(index `3 / 2` of the sorted contents) is `2`. -/
theorem deterministicMedianPivot_misses_median :
    ∀ g : RandSrc,
      Quicksort.deterministicMedianPivot 3 [2, 1, 3] 0 3 g = (.ok 1, [2, 1, 3], g) ∧
      ([2, 1, 3] : List Int).getD 1 0 = 1 ∧
      (sortedCopy [2, 1, 3]).getD (3 / 2) 0 = 2 := by
  intro g
  exact ⟨rfl, rfl, by decide⟩

/-- C9: on a view of length `n > 0`, `deterministicMedianPivot` terminates and
returns exactly `n / 2`; at every evaluation of the loop condition
`left ≤ n / 2 ≤ right` holds. -/
theorem deterministicMedianPivot_returns_midpoint (buf : List Int) (off n fuel : Nat)
    (g : RandSrc) (hn : 0 < n) (hv : off + n ≤ buf.length) (hf : n ≤ fuel) :
    (Quicksort.deterministicMedianPivot fuel buf off n g).1 = .ok (n / 2) ∧
    (0, n - 1) ∈ (Quicksort.medianLoop off (n / 2) fuel 0 (n - 1) buf).2.2 ∧
    ∀ p ∈ (Quicksort.medianLoop off (n / 2) fuel 0 (n - 1) buf).2.2, p.1 ≤ n / 2 ∧ n / 2 ≤ p.2 := by
  obtain ⟨b, e, _⟩ := Quicksort.deterministicMedianPivot_spec fuel buf off n g hn hv hf
  obtain ⟨buf2, t, e2, _, m, inv⟩ :=
    Quicksort.medianLoop_spec off (n / 2) fuel 0 (n - 1) buf (Nat.zero_le _) (by omega)
      (by omega) (by omega)
  rw [e, e2]
  exact ⟨rfl, m, inv⟩

theorem deterministicMedianPivot_returns_midpoint_witness :
    ((0 : Nat) < 5 ∧ 0 + 5 ≤ ([5, 3, 1, 4, 2] : List Int).length ∧ (5 : Nat) ≤ 5) ∧
    (Quicksort.medianLoop 0 (5 / 2) 5 0 (5 - 1) [5, 3, 1, 4, 2]).2.2 = [(0, 4), (0, 2), (2, 2)] ∧
    (Quicksort.deterministicMedianPivot 5 [5, 3, 1, 4, 2] 0 5 (fun _ => 0)).1 = .ok (5 / 2) :=
  ⟨⟨by decide, by decide, by decide⟩, by decide,
    (deterministicMedianPivot_returns_midpoint [5, 3, 1, 4, 2] 0 5 5 (fun _ => 0) (by decide)
      (by decide) (by decide)).1⟩

/-- C10: with a pivot strategy that, when present, meets the pivot contract,
`quickSelect(v, k, pivot)` fails with invalid-argument if and only if `v` is
empty, or `k < 1`, or `k > len(v)`, or the pivot strategy is absent; when it
fails this way `v` is left unchanged. -/
theorem quickSelect_invalid_argument_iff (fuel : Nat) (v : List Int) (k : Int)
    (pivot : Option Pivot_f) (g : RandSrc)
    (hp : ∀ pf, pivot = some pf → GoodPivot v.length pf) :
    ((KthOrder.quickSelect fuel v k pivot g).1 = .error .invalid_argument ↔
      (v = [] ∨ k < 1 ∨ k > (v.length : Int) ∨ pivot = none)) ∧
    ((KthOrder.quickSelect fuel v k pivot g).1 = .error .invalid_argument →
      (KthOrder.quickSelect fuel v k pivot g).2.1 = v) := by
  cases pivot with
  | none =>
    unfold KthOrder.quickSelect
    simp
  | some pf =>
    by_cases hg : v.isEmpty = true ∨ k ≤ 0 ∨ k > (v.length : Int)
    · have e : KthOrder.quickSelect fuel v k (some pf) g = (.error .invalid_argument, v, g) := by
        unfold KthOrder.quickSelect
        simp only [if_pos hg]
      rw [e]
      refine ⟨⟨fun _ => ?_, fun _ => rfl⟩, fun _ => rfl⟩
      rcases hg with h | h | h
      · left; rw [List.isEmpty_iff] at h; exact h
      · right; left; omega
      · right; right; left; exact h
    · have hv : v ≠ [] := by
        intro h; apply hg; left; rw [List.isEmpty_iff]; exact h
      have hne : ¬ (v = [] ∨ k < 1 ∨ k > (v.length : Int) ∨ (some pf : Option Pivot_f) = none) := by
        rintro (h | h | h | h)
        · exact hv h
        · apply hg; right; left; omega
        · apply hg; right; right; exact h
        · cases h
      have hok : (KthOrder.quickSelect fuel v k (some pf) g).1 ≠ .error .invalid_argument := by
        rcases KthOrder.quickSelect_spec pf v (hp pf rfl) k fuel g (by omega) (by omega) with
          ⟨o, _⟩ | ⟨v2, g2, e, _⟩
        · rw [o]; intro h; cases h
        · rw [e]; intro h; cases h
      exact ⟨⟨fun h => absurd h hok, fun h => absurd h hne⟩, fun h => absurd h hok⟩

theorem quickSelect_invalid_argument_iff_witness :
    (KthOrder.quickSelect 3 [] 1 (some deterministicPivot) (fun _ => 0)).1
      = .error .invalid_argument ∧
    (KthOrder.quickSelect 3 [1, 2, 3] 0 (some deterministicPivot) (fun _ => 0)).1
      = .error .invalid_argument ∧
    (KthOrder.quickSelect 3 [1, 2, 3] 0 (some deterministicPivot) (fun _ => 0)).2.1 = [1, 2, 3] :=
  ⟨(quickSelect_invalid_argument_iff 3 [] 1 (some deterministicPivot) (fun _ => 0)
      (fun pf h => by cases h; exact deterministicPivot_pure.good _)).1.mpr (Or.inl rfl),
   (quickSelect_invalid_argument_iff 3 [1, 2, 3] 0 (some deterministicPivot) (fun _ => 0)
      (fun pf h => by cases h; exact deterministicPivot_pure.good _)).1.mpr
        (Or.inr (Or.inl (by decide))),
   (quickSelect_invalid_argument_iff 3 [1, 2, 3] 0 (some deterministicPivot) (fun _ => 0)
      (fun pf h => by cases h; exact deterministicPivot_pure.good _)).2 (by decide)⟩

/-! ## Rejection of empty input -/

theorem minMaxElement_invalid_iff (v : List Int) :
    minMaxElement v = .error .invalid_argument ↔ v = [] := by
  unfold minMaxElement
  by_cases he : v.isEmpty = true
  · rw [if_pos he]
    rw [List.isEmpty_iff] at he
    exact ⟨fun _ => he, fun _ => rfl⟩
  · rw [if_neg he]
    rw [List.isEmpty_iff] at he
    exact ⟨fun h => (by cases h), fun h => absurd h he⟩

theorem Median.deterministicQuickSelect_not_invalid :
    ∀ (fuel : Nat) (arr : List Int) (low high k : Nat) (g : RandSrc), low ≤ k → k ≤ high →
      (Median.deterministicQuickSelect fuel arr low high k g).1 ≠ .error .invalid_argument := by
  intro fuel
  induction fuel with
  | zero =>
    intro arr low high k g _ _ h
    unfold Median.deterministicQuickSelect at h
    cases h
  | succ fuel ih =>
    intro arr low high k g h1 h2
    unfold Median.deterministicQuickSelect
    by_cases c : low = high
    · rw [if_pos c]
      intro h
      cases h
    · rw [if_neg c, Median.deterministic_partition_eq]
      simp only []
      by_cases c1 : k = (KthOrder.partition arr low high low).1
      · rw [if_pos c1]
        intro h
        cases h
      · rw [if_neg c1]
        by_cases c2 : k < (KthOrder.partition arr low high low).1
        · rw [if_pos c2]
          exact ih _ _ _ _ _ h1 (by omega)
        · rw [if_neg c2]
          exact ih _ _ _ _ _ (by omega) h2

theorem Median.randomQuickSelect_not_invalid :
    ∀ (fuel : Nat) (arr : List Int) (low high k : Nat) (g : RandSrc), low ≤ k → k ≤ high →
      (Median.randomQuickSelect fuel arr low high k g).1 ≠ .error .invalid_argument := by
  intro fuel
  induction fuel with
  | zero =>
    intro arr low high k g _ _ h
    unfold Median.randomQuickSelect at h
    cases h
  | succ fuel ih =>
    intro arr low high k g h1 h2
    unfold Median.randomQuickSelect
    by_cases c : low = high
    · rw [if_pos c]
      intro h
      cases h
    · rw [if_neg c, Median.random_partition_eq]
      simp only []
      by_cases c1 : k = (KthOrder.partition arr low high (g 0 % (high - low + 1) + low)).1
      · rw [if_pos c1]
        intro h
        cases h
      · rw [if_neg c1]
        by_cases c2 : k < (KthOrder.partition arr low high (g 0 % (high - low + 1) + low)).1
        · rw [if_pos c2]
          exact ih _ _ _ _ _ h1 (by omega)
        · rw [if_neg c2]
          exact ih _ _ _ _ _ (by omega) h2

theorem Median.medianDeterministicPivot_not_invalid (fuel : Nat) (v : List Int) (g : RandSrc)
    (hv : v ≠ []) :
    (Median.medianDeterministicPivot fuel v g).1 ≠ .error .invalid_argument := by
  have hpos : 0 < v.length := List.length_pos.mpr hv
  have he : ¬ (v.isEmpty = true) := by
    rw [List.isEmpty_iff]; exact hv
  unfold Median.medianDeterministicPivot
  simp only [if_neg he]
  by_cases hpar : v.length % 2 = 0
  · rw [if_pos hpar]
    rcases h1 : Median.deterministicQuickSelect fuel v 0 (v.length - 1) (v.length / 2 - 1) g with
      ⟨r1, a1, g1⟩
    have n1 := Median.deterministicQuickSelect_not_invalid fuel v 0 (v.length - 1)
      (v.length / 2 - 1) g (Nat.zero_le _) (by omega)
    rw [h1] at n1
    cases r1 with
    | error e =>
      simp only []
      intro h
      apply n1
      simpa using h
    | ok x1 =>
      simp only []
      rcases h2 : Median.deterministicQuickSelect fuel a1 0 (v.length - 1) (v.length / 2) g1 with
        ⟨r2, a2, g2⟩
      have n2 := Median.deterministicQuickSelect_not_invalid fuel a1 0 (v.length - 1)
        (v.length / 2) g1 (Nat.zero_le _) (by omega)
      rw [h2] at n2
      cases r2 with
      | error e =>
        simp only []
        intro h
        apply n2
        simpa using h
      | ok x2 =>
        simp only []
        intro h
        cases h
  · rw [if_neg hpar]
    rcases h1 : Median.deterministicQuickSelect fuel v 0 (v.length - 1) (v.length / 2) g with
      ⟨r1, a1, g1⟩
    have n1 := Median.deterministicQuickSelect_not_invalid fuel v 0 (v.length - 1)
      (v.length / 2) g (Nat.zero_le _) (by omega)
    rw [h1] at n1
    cases r1 with
    | error e =>
      simp only []
      intro h
      apply n1
      simpa using h
    | ok x1 =>
      simp only []
      intro h
      cases h

theorem Median.medianUniformRandomPivot_not_invalid (fuel : Nat) (v : List Int) (g : RandSrc)
    (hv : v ≠ []) :
    (Median.medianUniformRandomPivot fuel v g).1 ≠ .error .invalid_argument := by
  have hpos : 0 < v.length := List.length_pos.mpr hv
  have he : ¬ (v.isEmpty = true) := by
    rw [List.isEmpty_iff]; exact hv
  unfold Median.medianUniformRandomPivot
  simp only [if_neg he]
  by_cases hpar : v.length % 2 = 0
  · rw [if_pos hpar]
    rcases h1 : Median.randomQuickSelect fuel v 0 (v.length - 1) (v.length / 2 - 1) g with
      ⟨r1, a1, g1⟩
    have n1 := Median.randomQuickSelect_not_invalid fuel v 0 (v.length - 1)
      (v.length / 2 - 1) g (Nat.zero_le _) (by omega)
    rw [h1] at n1
    cases r1 with
    | error e =>
      simp only []
      intro h
      apply n1
      simpa using h
    | ok x1 =>
      simp only []
      rcases h2 : Median.randomQuickSelect fuel a1 0 (v.length - 1) (v.length / 2) g1 with
        ⟨r2, a2, g2⟩
      have n2 := Median.randomQuickSelect_not_invalid fuel a1 0 (v.length - 1)
        (v.length / 2) g1 (Nat.zero_le _) (by omega)
      rw [h2] at n2
      cases r2 with
      | error e =>
        simp only []
        intro h
        apply n2
        simpa using h
      | ok x2 =>
        simp only []
        intro h
        cases h
  · rw [if_neg hpar]
    rcases h1 : Median.randomQuickSelect fuel v 0 (v.length - 1) (v.length / 2) g with
      ⟨r1, a1, g1⟩
    have n1 := Median.randomQuickSelect_not_invalid fuel v 0 (v.length - 1)
      (v.length / 2) g (Nat.zero_le _) (by omega)
    rw [h1] at n1
    cases r1 with
    | error e =>
      simp only []
      intro h
      apply n1
      simpa using h
    | ok x1 =>
      simp only []
      intro h
      cases h

theorem Median.median_of_empty (fuel : Nat) (g : RandSrc) :
    Median.medianDeterministicPivot fuel [] g = (.error .invalid_argument, [], g) ∧
    Median.medianUniformRandomPivot fuel [] g = (.error .invalid_argument, [], g) :=
  ⟨rfl, rfl⟩

/-! ## The caller's vector in the median functions -/

theorem Median.medianDeterministicPivot_frame (fuel : Nat) (v : List Int) (g : RandSrc) :
    (Median.medianDeterministicPivot fuel v g).2.1 = v := by
  unfold Median.medianDeterministicPivot
  dsimp only
  repeat' split
  all_goals rfl

theorem Median.medianUniformRandomPivot_frame (fuel : Nat) (v : List Int) (g : RandSrc) :
    (Median.medianUniformRandomPivot fuel v g).2.1 = v := by
  unfold Median.medianUniformRandomPivot
  dsimp only
  repeat' split
  all_goals rfl

/-! ## Sorted input -/

theorem Quicksort.sort_sorted_id (pf : Pivot_f) (v : List Int) (hpf : GoodPivot v.length pf)
    (fuel : Nat) (g : RandSrc) (hf : v.length ≤ fuel) (hs : v.Sorted (· ≤ ·)) :
    (Quicksort.quickSortSimplePivot fuel v pf g).2.1 = v ∧
    (Quicksort.quickSortMedianPivot fuel v pf g).2.1 = v := by
  obtain ⟨v2, g2, e1, e2, p, s⟩ := Quicksort.sort_spec pf v hpf fuel g hf
  rw [e1, e2]
  exact ⟨List.eq_of_perm_of_sorted p s hs, List.eq_of_perm_of_sorted p s hs⟩

theorem Quicksort.sort_twice (pf : Pivot_f) (v : List Int) (hpf : GoodPivot v.length pf)
    (fuel : Nat) (g g2 : RandSrc) (hf : v.length ≤ fuel) :
    (Quicksort.quickSortSimplePivot fuel (Quicksort.quickSortSimplePivot fuel v pf g).2.1 pf
        g2).2.1 = (Quicksort.quickSortSimplePivot fuel v pf g).2.1 ∧
    (Quicksort.quickSortMedianPivot fuel (Quicksort.quickSortMedianPivot fuel v pf g).2.1 pf
        g2).2.1 = (Quicksort.quickSortMedianPivot fuel v pf g).2.1 := by
  obtain ⟨w, g3, e1, e2, p, s⟩ := Quicksort.sort_spec pf v hpf fuel g hf
  rw [e1, e2]
  have hl : w.length = v.length := p.length_eq
  exact Quicksort.sort_sorted_id pf w (by rw [hl]; exact hpf) fuel g2 (by omega) s

/-! ## The window of a partition step -/

theorem getElem?_eq_of_getD (a b : List Int) (hlen : b.length = a.length) (k : Nat)
    (h : b.getD k 0 = a.getD k 0) : b[k]? = a[k]? := by
  by_cases hk : k < a.length
  · have hk2 : k < b.length := by omega
    rw [List.getD_eq_getElem _ _ hk, List.getD_eq_getElem _ _ hk2] at h
    rw [List.getElem?_eq_getElem hk, List.getElem?_eq_getElem hk2, h]
  · rw [List.getElem?_eq_none (by omega), List.getElem?_eq_none (by omega)]

theorem WinPerm.window_perm {lo hi : Nat} {a b : List Int} (h : WinPerm lo hi a b) :
    ((b.drop lo).take (hi - lo)).Perm ((a.drop lo).take (hi - lo)) := by
  have hlen := h.length_eq
  have e1 : b.take lo = a.take lo := by
    apply List.ext_getElem?
    intro k
    rw [List.getElem?_take, List.getElem?_take]
    by_cases hk : k < lo
    · rw [if_pos hk, if_pos hk]
      exact getElem?_eq_of_getD a b hlen k (h.outside k (Or.inl hk))
    · rw [if_neg hk, if_neg hk]
  have e2 : (b.drop lo).drop (hi - lo) = (a.drop lo).drop (hi - lo) := by
    apply List.ext_getElem?
    intro k
    rw [List.getElem?_drop, List.getElem?_drop, List.getElem?_drop, List.getElem?_drop]
    exact getElem?_eq_of_getD a b hlen _ (h.outside _ (Or.inr (by omega)))
  have hb : b = b.take lo ++ ((b.drop lo).take (hi - lo) ++ (b.drop lo).drop (hi - lo)) := by
    rw [List.take_append_drop, List.take_append_drop]
  have ha : a = a.take lo ++ ((a.drop lo).take (hi - lo) ++ (a.drop lo).drop (hi - lo)) := by
    rw [List.take_append_drop, List.take_append_drop]
  have hp := h.perm
  rw [hb, ha, e1, e2] at hp
  exact (List.perm_append_right_iff _).mp ((List.perm_append_left_iff _).mp hp)

/-! ## The iterative and the recursive selection -/

theorem KthOrder.partition_single (v : List Int) (low : Nat) :
    KthOrder.partition v low low low = (low, v) := by
  unfold KthOrder.partition
  simp only [Nat.sub_self, KthOrder.partitionLoop, swap_self]

theorem KthOrder.quickSelectLoop_eq_deterministicQuickSelect :
    ∀ (fuel : Nat) (v : List Int) (low high k : Nat) (g : RandSrc), low ≤ k → k ≤ high →
      KthOrder.quickSelectLoop deterministicPivot ((k : Int) + 1) fuel v (low : Int) (high : Int) g
        = Median.deterministicQuickSelect fuel v low high k g := by
  intro fuel
  induction fuel with
  | zero => intro v low high k g _ _; rfl
  | succ fuel ih =>
    intro v low high k g h1 h2
    unfold KthOrder.quickSelectLoop Median.deterministicQuickSelect
    have hlow : (low : Int).toNat = low := by omega
    have hhigh : (high : Int).toNat = high := by omega
    have hn : ((high : Int) - (low : Int) + 1).toNat = high - low + 1 := by omega
    have hp : deterministicPivot v low (high - low + 1) g = (.ok 0, v, g) := by
      unfold deterministicPivot
      rw [if_neg (by omega)]
    rw [if_pos (by omega : (low : Int) ≤ (high : Int))]
    simp only [hlow, hhigh, hn, hp, Nat.add_zero]
    by_cases c : low = high
    · rw [if_pos c]
      subst c
      have ek : k = low := by omega
      subst ek
      rw [KthOrder.partition_single]
      simp only []
      rw [if_pos (by omega)]
    · rw [if_neg c, Median.deterministic_partition_eq]
      rcases hpart : KthOrder.partition v low high low with ⟨r, a1⟩
      simp only []
      by_cases c1 : k = r
      · rw [if_pos c1, if_pos (by omega)]
      · rw [if_neg c1, if_neg (by omega)]
        by_cases c2 : k < r
        · rw [if_pos c2, if_pos (by omega)]
          have e : ((r : Int) - 1) = ((r - 1 : Nat) : Int) := by omega
          rw [e]
          exact ih a1 low (r - 1) k g h1 (by omega)
        · rw [if_neg c2, if_neg (by omega)]
          have e : ((r : Int) + 1) = ((r + 1 : Nat) : Int) := by omega
          rw [e]
          exact ih a1 (r + 1) high k g (by omega) h2

theorem KthOrder.quickSelect_eq_deterministicQuickSelect (fuel : Nat) (arr : List Int) (k : Nat)
    (g : RandSrc) (hk : k < arr.length) :
    KthOrder.quickSelect fuel arr ((k : Int) + 1) (some deterministicPivot) g
      = Median.deterministicQuickSelect fuel arr 0 (arr.length - 1) k g := by
  have hne : ¬ (arr.isEmpty = true ∨ (k : Int) + 1 ≤ 0 ∨ (k : Int) + 1 > (arr.length : Int)) := by
    rintro (h | h | h)
    · rw [List.isEmpty_iff] at h
      subst h
      simp at hk
    · omega
    · omega
  unfold KthOrder.quickSelect
  simp only [if_neg hne]
  have e : ((arr.length : Int) - 1) = ((arr.length - 1 : Nat) : Int) := by omega
  rw [e]
  exact KthOrder.quickSelectLoop_eq_deterministicQuickSelect fuel arr 0 (arr.length - 1) k g
    (Nat.zero_le _) (by omega)

/-! ## Validity of the index ranges -/

theorem GoodPivot.inWindow {L : Nat} {pf : Pivot_f} (h : GoodPivot L pf) : InWindowPivot L pf := by
  intro buf off n g hL hn hoff
  obtain ⟨i, buf1, g1, e, hi, w⟩ := h buf off n g hL hn hoff
  exact ⟨i, buf1, g1, e, hi, by rw [w.length_eq, hL]⟩

theorem KthOrder.quickSelectEvents_spec (pf : Pivot_f) (L : Nat) (hpf : InWindowPivot L pf)
    (k : Int) :
    ∀ (fuel : Nat) (v : List Int) (left right : Int) (g : RandSrc),
      v.length = L → 0 ≤ left → left ≤ k - 1 → k - 1 ≤ right → right < L →
      (∀ e ∈ KthOrder.quickSelectEvents pf k fuel v left right g,
        e.Valid ∧ ∀ l r, e = .loopHead l r → l ≤ k - 1 ∧ k - 1 ≤ r) ∧
      (((KthOrder.quickSelectLoop pf k fuel v left right g).1 = .error .out_of_fuel ∧
          fuel < (right - left + 1).toNat) ∨
        ∃ x, (KthOrder.quickSelectLoop pf k fuel v left right g).1 = .ok x) := by
  intro fuel
  induction fuel with
  | zero =>
    intro v left right g hL h0 hl hr hR
    refine ⟨?_, Or.inl ⟨rfl, by omega⟩⟩
    intro e he
    unfold KthOrder.quickSelectEvents at he
    cases he
  | succ fuel ih =>
    intro v left right g hL h0 hl hr hR
    unfold KthOrder.quickSelectEvents KthOrder.quickSelectLoop
    rw [if_pos (by omega : left ≤ right), if_pos (by omega : left ≤ right)]
    obtain ⟨i, v1, g1, e1, hi, hL1⟩ :=
      hpf v left.toNat (right - left + 1).toNat g hL (by omega) (by omega)
    obtain ⟨r, v2, e2, b1, b2, w2, _, _, _⟩ :=
      KthOrder.partition_spec v1 left.toNat right.toNat (left.toNat + i) (by omega) (by omega)
        (by omega)
    have hL2 : v2.length = L := by rw [w2.length_eq, hL1]
    have hhead : (Event.loopHead left right).Valid ∧
        ∀ l r, Event.loopHead left right = .loopHead l r → l ≤ k - 1 ∧ k - 1 ≤ r := by
      refine ⟨⟨h0, by omega⟩, ?_⟩
      intro l r h
      cases h
      exact ⟨hl, hr⟩
    have hcall : (Event.partitionCall left.toNat right.toNat (left.toNat + i) v1.length).Valid ∧
        ∀ l r, Event.partitionCall left.toNat right.toNat (left.toNat + i) v1.length
          = .loopHead l r → l ≤ k - 1 ∧ k - 1 ≤ r := by
      refine ⟨⟨by omega, by omega, by omega, by omega, by omega⟩, ?_⟩
      intro l r h
      cases h
    simp only [e1, e2]
    by_cases c1 : (r : Int) = k - 1
    · rw [if_pos c1, if_pos c1]
      refine ⟨?_, Or.inr ⟨_, rfl⟩⟩
      intro e he
      simp only [List.mem_cons, List.mem_singleton, List.not_mem_nil, or_false] at he
      rcases he with h | h
      · rw [h]; exact hhead
      · rw [h]; exact hcall
    · rw [if_neg c1, if_neg c1]
      by_cases c2 : (r : Int) > k - 1
      · rw [if_pos c2, if_pos c2]
        obtain ⟨iv, ir⟩ := ih v2 left ((r : Int) - 1) g1 hL2 h0 hl (by omega) (by omega)
        refine ⟨?_, ?_⟩
        · intro e he
          simp only [List.mem_cons] at he
          rcases he with h | h | h | h
          · rw [h]; exact hhead
          · rw [h]; exact hcall
          · rw [h]
            refine ⟨(by show 1 ≤ r; omega), ?_⟩
            intro l r2 h2
            cases h2
          · exact iv e h
        · rcases ir with ⟨o1, o2⟩ | ok
          · exact Or.inl ⟨o1, by omega⟩
          · exact Or.inr ok
      · rw [if_neg c2, if_neg c2]
        obtain ⟨iv, ir⟩ := ih v2 ((r : Int) + 1) right g1 hL2 (by omega) (by omega) hr hR
        refine ⟨?_, ?_⟩
        · intro e he
          simp only [List.mem_cons] at he
          rcases he with h | h | h
          · rw [h]; exact hhead
          · rw [h]; exact hcall
          · exact iv e h
        · rcases ir with ⟨o1, o2⟩ | ok
          · exact Or.inl ⟨o1, by omega⟩
          · exact Or.inr ok

theorem Median.deterministicPartitionEvents_eq (arr : List Int) (low high : Nat) (g : RandSrc) :
    Median.deterministicPartitionEvents arr low high g
      = [.partitionCall low high low arr.length] := by
  unfold Median.deterministicPartitionEvents deterministicPivot
  rw [if_neg (by omega)]
  simp only [Nat.zero_add]

theorem Median.randomPartitionEvents_eq (arr : List Int) (low high : Nat) (g : RandSrc) :
    Median.randomPartitionEvents arr low high g
      = [.partitionCall low high (g 0 % (high - low + 1) + low) arr.length] := by
  unfold Median.randomPartitionEvents uniformRandomPivot
  rw [if_neg (by omega)]
  rfl

theorem Median.deterministicQuickSelectEvents_valid :
    ∀ (fuel : Nat) (arr : List Int) (low high k : Nat) (g : RandSrc), low ≤ k → k ≤ high →
      high < arr.length →
      ∀ e ∈ Median.deterministicQuickSelectEvents fuel arr low high k g, e.Valid := by
  intro fuel
  induction fuel with
  | zero =>
    intro arr low high k g _ _ _ e he
    unfold Median.deterministicQuickSelectEvents at he
    cases he
  | succ fuel ih =>
    intro arr low high k g h1 h2 h3 e he
    unfold Median.deterministicQuickSelectEvents at he
    by_cases c : low = high
    · rw [if_pos c] at he
      cases he
    · rw [if_neg c, Median.deterministic_partition_eq,
        Median.deterministicPartitionEvents_eq] at he
      obtain ⟨r, a1, e2, b1, b2, w, _, _, _⟩ :=
        KthOrder.partition_spec arr low high low (le_refl _) (by omega) h3
      have hlen : a1.length = arr.length := w.length_eq
      have hcall : (Event.partitionCall low high low arr.length).Valid :=
        ⟨by omega, by omega, by omega, by omega, by omega⟩
      rw [e2] at he
      simp only [] at he
      by_cases c1 : k = r
      · rw [if_pos c1] at he
        rw [List.mem_singleton.mp he]
        exact hcall
      · rw [if_neg c1] at he
        by_cases c2 : k < r
        · rw [if_pos c2] at he
          simp only [List.singleton_append, List.mem_cons] at he
          rcases he with h | h | h
          · rw [h]; exact hcall
          · rw [h]; show 1 ≤ r; omega
          · exact ih a1 low (r - 1) k g h1 (by omega) (by omega) e h
        · rw [if_neg c2] at he
          simp only [List.singleton_append, List.mem_cons] at he
          rcases he with h | h
          · rw [h]; exact hcall
          · exact ih a1 (r + 1) high k g (by omega) h2 (by omega) e h

theorem Median.randomQuickSelectEvents_valid :
    ∀ (fuel : Nat) (arr : List Int) (low high k : Nat) (g : RandSrc), low ≤ k → k ≤ high →
      high < arr.length →
      ∀ e ∈ Median.randomQuickSelectEvents fuel arr low high k g, e.Valid := by
  intro fuel
  induction fuel with
  | zero =>
    intro arr low high k g _ _ _ e he
    unfold Median.randomQuickSelectEvents at he
    cases he
  | succ fuel ih =>
    intro arr low high k g h1 h2 h3 e he
    unfold Median.randomQuickSelectEvents at he
    by_cases c : low = high
    · rw [if_pos c] at he
      cases he
    · rw [if_neg c, Median.random_partition_eq, Median.randomPartitionEvents_eq] at he
      have hm : g 0 % (high - low + 1) < high - low + 1 := Nat.mod_lt _ (by omega)
      obtain ⟨r, a1, e2, b1, b2, w, _, _, _⟩ :=
        KthOrder.partition_spec arr low high (g 0 % (high - low + 1) + low) (by omega)
          (by omega) h3
      have hlen : a1.length = arr.length := w.length_eq
      have hcall : (Event.partitionCall low high (g 0 % (high - low + 1) + low)
          arr.length).Valid :=
        ⟨by omega, by omega, by omega, by omega, by omega⟩
      rw [e2] at he
      simp only [] at he
      by_cases c1 : k = r
      · rw [if_pos c1] at he
        rw [List.mem_singleton.mp he]
        exact hcall
      · rw [if_neg c1] at he
        by_cases c2 : k < r
        · rw [if_pos c2] at he
          simp only [List.singleton_append, List.mem_cons] at he
          rcases he with h | h | h
          · rw [h]; exact hcall
          · rw [h]; show 1 ≤ r; omega
          · exact ih a1 low (r - 1) k _ h1 (by omega) (by omega) e h
        · rw [if_neg c2] at he
          simp only [List.singleton_append, List.mem_cons] at he
          rcases he with h | h
          · rw [h]; exact hcall
          · exact ih a1 (r + 1) high k _ (by omega) h2 (by omega) e h

theorem Quicksort.quickSortEvents_spec (pf : Pivot_f) (L : Nat) (hpf : InWindowPivot L pf) :
    ∀ (fuel : Nat) (v : List Int) (left right : Nat) (g : RandSrc),
      v.length = L → left ≤ right → right < L →
      (Quicksort.quickSort pf fuel v left right g).2.1.length = L ∧
      ∀ e ∈ Quicksort.quickSortEvents pf fuel v left right g, e.Valid := by
  intro fuel
  induction fuel with
  | zero =>
    intro v left right g hL _ _
    refine ⟨hL, ?_⟩
    intro e he
    unfold Quicksort.quickSortEvents at he
    cases he
  | succ fuel ih =>
    intro v left right g hL hlr hr
    unfold Quicksort.quickSort Quicksort.quickSortEvents
    by_cases c : left < right
    · rw [if_pos c, if_pos c]
      obtain ⟨i, v1, g1, e1, hi, hL1⟩ := hpf v left (right - left + 1) g hL (by omega) (by omega)
      obtain ⟨r, v2, e2, b1, b2, w, _, _, _⟩ :=
        KthOrder.partition_spec v1 left right (i + left) (by omega) (by omega) (by omega)
      have hL2 : v2.length = L := by rw [w.length_eq, hL1]
      have hev : Quicksort.partitionEvents v pf left right g
          = [.partitionCall left right (i + left) v1.length] := by
        unfold Quicksort.partitionEvents
        simp only [e1]
      have hcall : (Event.partitionCall left right (i + left) v1.length).Valid :=
        ⟨by omega, by omega, by omega, by omega, by omega⟩
      rw [Quicksort.partition_eq_kth v pf left right g i v1 g1 e1, e2, hev]
      simp only []
      -- the left recursive call
      have hA : ((if left < r then Quicksort.quickSort pf fuel v2 left (r - 1) g1
            else (Except.ok (), v2, g1)).2.1.length = L) ∧
          ∀ e ∈ (if left < r then
              Event.predecessor r :: Quicksort.quickSortEvents pf fuel v2 left (r - 1) g1
            else []), e.Valid := by
        by_cases cl : left < r
        · rw [if_pos cl, if_pos cl]
          obtain ⟨l1, v1e⟩ := ih v2 left (r - 1) g1 hL2 (by omega) (by omega)
          refine ⟨l1, ?_⟩
          intro e he
          rcases List.mem_cons.mp he with h | h
          · rw [h]; show 1 ≤ r; omega
          · exact v1e e h
        · rw [if_neg cl, if_neg cl]
          refine ⟨hL2, ?_⟩
          intro e he
          cases he
      obtain ⟨hAlen, hAev⟩ := hA
      rcases hres : (if left < r then Quicksort.quickSort pf fuel v2 left (r - 1) g1
            else (Except.ok (), v2, g1)) with ⟨rA, vA, gA⟩
      rw [hres] at hAlen
      cases rA with
      | error err =>
        simp only []
        refine ⟨hAlen, ?_⟩
        intro e he
        simp only [List.append_nil, List.mem_append, List.mem_singleton] at he
        rcases he with h | h
        · rw [h]; exact hcall
        · exact hAev e h
      | ok u =>
        simp only []
        by_cases cr : r < right
        · rw [if_pos cr, if_pos cr]
          obtain ⟨l2, v2e⟩ := ih vA (r + 1) right gA hAlen (by omega) hr
          refine ⟨l2, ?_⟩
          intro e he
          simp only [List.mem_append, List.mem_singleton] at he
          rcases he with (h | h) | h
          · rw [h]; exact hcall
          · exact hAev e h
          · exact v2e e h
        · rw [if_neg cr, if_neg cr]
          refine ⟨hAlen, ?_⟩
          intro e he
          simp only [List.append_nil, List.mem_append, List.mem_singleton] at he
          rcases he with h | h
          · rw [h]; exact hcall
          · exact hAev e h
    · rw [if_neg c, if_neg c]
      refine ⟨hL, ?_⟩
      intro e he
      cases he

/-- C11: for a rank `1 ≤ k ≤ len(v)` (so `v` is non-empty) and a pivot strategy
that returns an index of the window it is given, the `while` loop of
`quickSelect` never falls through: the call never ends in the runtime error,
it returns a value once the step budget covers `len(v)` iterations, and at
every evaluation of the loop condition `left ≤ k - 1 ≤ right`. -/
theorem quickSelect_loop_always_returns (v : List Int) (k : Int) (pf : Pivot_f) (fuel : Nat)
    (g : RandSrc) (hk1 : 1 ≤ k) (hk2 : k ≤ (v.length : Int))
    (hpf : InWindowPivot v.length pf) :
    KthOrder.quickSelect fuel v k (some pf) g
      = KthOrder.quickSelectLoop pf k fuel v 0 ((v.length : Int) - 1) g ∧
    (KthOrder.quickSelect fuel v k (some pf) g).1 ≠ .error .runtime_error ∧
    (v.length ≤ fuel → ∃ x, (KthOrder.quickSelect fuel v k (some pf) g).1 = .ok x) ∧
    (∀ l r, Event.loopHead l r ∈ KthOrder.quickSelectEvents pf k fuel v 0 ((v.length : Int) - 1) g →
      l ≤ k - 1 ∧ k - 1 ≤ r) := by
  have hne : ¬ (v.isEmpty = true ∨ k ≤ 0 ∨ k > (v.length : Int)) := by
    rintro (h | h | h)
    · rw [List.isEmpty_iff] at h
      subst h
      simp at hk2
      omega
    · omega
    · omega
  have e : KthOrder.quickSelect fuel v k (some pf) g
      = KthOrder.quickSelectLoop pf k fuel v 0 ((v.length : Int) - 1) g := by
    unfold KthOrder.quickSelect
    simp only [if_neg hne]
  obtain ⟨hev, hres⟩ := KthOrder.quickSelectEvents_spec pf v.length hpf k fuel v 0
    ((v.length : Int) - 1) g rfl (le_refl _) (by omega) (by omega) (by omega)
  rw [e]
  refine ⟨rfl, ?_, ?_, ?_⟩
  · rcases hres with ⟨o, _⟩ | ⟨x, hx⟩
    · rw [o]; intro h; cases h
    · rw [hx]; intro h; cases h
  · intro hf
    rcases hres with ⟨_, o⟩ | ok
    · omega
    · exact ok
  · intro l r hm
    exact (hev _ hm).2 l r rfl

theorem quickSelect_loop_always_returns_witness :
    ((1 : Int) ≤ 1 ∧ (1 : Int) ≤ (([4, 5, 6, 0, 2] : List Int).length : Int)) ∧
    KthOrder.quickSelectEvents deterministicPivot 1 5 [4, 5, 6, 0, 2] 0 4 (fun _ => 0)
      = [.loopHead 0 4, .partitionCall 0 4 0 5, .predecessor 2, .loopHead 0 1,
          .partitionCall 0 1 0 5, .predecessor 1, .loopHead 0 0, .partitionCall 0 0 0 5] ∧
    (KthOrder.quickSelect 5 [4, 5, 6, 0, 2] 1 (some deterministicPivot) (fun _ => 0)).1
      ≠ .error .runtime_error :=
  ⟨⟨by decide, by decide⟩, by decide,
    (quickSelect_loop_always_returns [4, 5, 6, 0, 2] 1 deterministicPivot 5 (fun _ => 0)
      (by decide) (by decide) (deterministicPivot_pure.good _).inWindow).2.1⟩

/-- C12: `minMaxElement`, `medianDeterministicPivot` and
`medianUniformRandomPivot` fail with invalid-argument exactly when the vector
is empty, and each of the four pivot strategies fails with invalid-argument
when it is called with `n = 0`. -/
theorem empty_input_rejected (fuel : Nat) (v buf : List Int) (off : Nat) (g : RandSrc) :
    (minMaxElement v = .error .invalid_argument ↔ v = []) ∧
    ((Median.medianDeterministicPivot fuel v g).1 = .error .invalid_argument ↔ v = []) ∧
    ((Median.medianUniformRandomPivot fuel v g).1 = .error .invalid_argument ↔ v = []) ∧
    (deterministicPivot buf off 0 g).1 = .error .invalid_argument ∧
    (uniformRandomPivot buf off 0 g).1 = .error .invalid_argument ∧
    (Quicksort.deterministicMedianPivot fuel buf off 0 g).1 = .error .invalid_argument ∧
    (Quicksort.uniformRandomMedianPivot buf off 0 g).1 = .error .invalid_argument := by
  refine ⟨minMaxElement_invalid_iff v, ?_, ?_, rfl, rfl, rfl, rfl⟩
  · constructor
    · intro h
      by_contra hv
      exact Median.medianDeterministicPivot_not_invalid fuel v g hv h
    · intro h
      subst h
      rw [(Median.median_of_empty fuel g).1]
  · constructor
    · intro h
      by_contra hv
      exact Median.medianUniformRandomPivot_not_invalid fuel v g hv h
    · intro h
      subst h
      rw [(Median.median_of_empty fuel g).2]

theorem empty_input_rejected_witness :
    minMaxElement [] = .error .invalid_argument ∧
    (Median.medianDeterministicPivot 1 [] (fun _ => 0)).1 = .error .invalid_argument ∧
    (Median.medianDeterministicPivot 1 [7] (fun _ => 0)).1 ≠ .error .invalid_argument :=
  ⟨(empty_input_rejected 1 [] [] 0 (fun _ => 0)).1.mpr rfl,
   (empty_input_rejected 1 [] [] 0 (fun _ => 0)).2.1.mpr rfl,
   fun h => absurd ((empty_input_rejected 1 [7] [] 0 (fun _ => 0)).2.1.mp h) (by decide)⟩

/-- C13: `medianDeterministicPivot` and `medianUniformRandomPivot` leave the
caller's vector as it was, whether they return a value or fail: the selections
reorder a copy. -/
theorem median_leaves_input_unchanged (fuel : Nat) (v : List Int) (g : RandSrc) :
    (Median.medianDeterministicPivot fuel v g).2.1 = v ∧
    (Median.medianUniformRandomPivot fuel v g).2.1 = v :=
  ⟨Median.medianDeterministicPivot_frame fuel v g, Median.medianUniformRandomPivot_frame fuel v g⟩

/-- C14: on a vector that is already in non-decreasing order,
`quickSortSimplePivot` and `quickSortMedianPivot` leave it equal to the input
element for element, with each of the four pivot strategies; hence sorting the
result of a sort once more changes nothing. -/
theorem quickSort_keeps_sorted_input (v : List Int) (fuel pivotFuel : Nat) (g g2 : RandSrc)
    (hf : v.length ≤ fuel) (hpf : v.length ≤ pivotFuel) :
    (v.Sorted (· ≤ ·) →
      (Quicksort.quickSortSimplePivot fuel v deterministicPivot g).2.1 = v ∧
      (Quicksort.quickSortSimplePivot fuel v uniformRandomPivot g).2.1 = v ∧
      (Quicksort.quickSortMedianPivot fuel v (Quicksort.deterministicMedianPivot pivotFuel) g).2.1
        = v ∧
      (Quicksort.quickSortMedianPivot fuel v Quicksort.uniformRandomMedianPivot g).2.1 = v) ∧
    (Quicksort.quickSortSimplePivot fuel
        (Quicksort.quickSortSimplePivot fuel v deterministicPivot g).2.1 deterministicPivot g2).2.1
      = (Quicksort.quickSortSimplePivot fuel v deterministicPivot g).2.1 ∧
    (Quicksort.quickSortSimplePivot fuel
        (Quicksort.quickSortSimplePivot fuel v uniformRandomPivot g).2.1 uniformRandomPivot g2).2.1
      = (Quicksort.quickSortSimplePivot fuel v uniformRandomPivot g).2.1 ∧
    (Quicksort.quickSortMedianPivot fuel
        (Quicksort.quickSortMedianPivot fuel v (Quicksort.deterministicMedianPivot pivotFuel) g).2.1
        (Quicksort.deterministicMedianPivot pivotFuel) g2).2.1
      = (Quicksort.quickSortMedianPivot fuel v
          (Quicksort.deterministicMedianPivot pivotFuel) g).2.1 ∧
    (Quicksort.quickSortMedianPivot fuel
        (Quicksort.quickSortMedianPivot fuel v Quicksort.uniformRandomMedianPivot g).2.1
        Quicksort.uniformRandomMedianPivot g2).2.1
      = (Quicksort.quickSortMedianPivot fuel v Quicksort.uniformRandomMedianPivot g).2.1 := by
  have p1 := deterministicPivot_pure.good v.length
  have p2 := uniformRandomPivot_pure.good v.length
  have p3 := Quicksort.deterministicMedianPivot_good pivotFuel v.length hpf
  have p4 := Quicksort.uniformRandomMedianPivot_good v.length
  refine ⟨fun hs => ⟨?_, ?_, ?_, ?_⟩, ?_, ?_, ?_, ?_⟩
  · exact (Quicksort.sort_sorted_id _ v p1 fuel g hf hs).1
  · exact (Quicksort.sort_sorted_id _ v p2 fuel g hf hs).1
  · exact (Quicksort.sort_sorted_id _ v p3 fuel g hf hs).2
  · exact (Quicksort.sort_sorted_id _ v p4 fuel g hf hs).2
  · exact (Quicksort.sort_twice _ v p1 fuel g g2 hf).1
  · exact (Quicksort.sort_twice _ v p2 fuel g g2 hf).1
  · exact (Quicksort.sort_twice _ v p3 fuel g g2 hf).2
  · exact (Quicksort.sort_twice _ v p4 fuel g g2 hf).2

theorem quickSort_keeps_sorted_input_witness :
    (([1, 2, 2, 5] : List Int).length ≤ 4 ∧ ([1, 2, 2, 5] : List Int).Sorted (· ≤ ·)) ∧
    (Quicksort.quickSortSimplePivot 4 [1, 2, 2, 5] deterministicPivot (fun _ => 0)).2.1
      = [1, 2, 2, 5] ∧
    (Quicksort.quickSortMedianPivot 4 [1, 2, 2, 5] (Quicksort.deterministicMedianPivot 4)
      (fun _ => 0)).2.1 = [1, 2, 2, 5] :=
  ⟨⟨by decide, by decide⟩,
   ((quickSort_keeps_sorted_input [1, 2, 2, 5] 4 4 (fun _ => 0) (fun _ => 0) (by decide)
      (by decide)).1 (by decide)).1,
   ((quickSort_keeps_sorted_input [1, 2, 2, 5] 4 4 (fun _ => 0) (fun _ => 0) (by decide)
      (by decide)).1 (by decide)).2.2.1⟩

/-- C15: on a view of length `n > 0` inside the buffer, with the random index
`r = rand() % n`, `uniformRandomMedianPivot` returns `n - 1` and leaves the
buffer with the elements of positions `r` and `n - 1` of the view exchanged and
every other position unchanged. -/
theorem uniformRandomMedianPivot_exchanges_last (buf : List Int) (off n r : Nat) (g : RandSrc)
    (hn : 0 < n) (hv : off + n ≤ buf.length) (hr : g 0 % n = r) :
    r ≤ n - 1 ∧
    (Quicksort.uniformRandomMedianPivot buf off n g).1 = .ok (n - 1) ∧
    (Quicksort.uniformRandomMedianPivot buf off n g).2.1.length = buf.length ∧
    (Quicksort.uniformRandomMedianPivot buf off n g).2.1.getD (off + r) 0
      = buf.getD (off + (n - 1)) 0 ∧
    (Quicksort.uniformRandomMedianPivot buf off n g).2.1.getD (off + (n - 1)) 0
      = buf.getD (off + r) 0 ∧
    (∀ j, j ≠ off + r → j ≠ off + (n - 1) →
      (Quicksort.uniformRandomMedianPivot buf off n g).2.1.getD j 0 = buf.getD j 0) := by
  have hlt : g 0 % n < n := Nat.mod_lt _ hn
  rw [Quicksort.uniformRandomMedianPivot_spec buf off n g hn, hr]
  rw [hr] at hlt
  refine ⟨by omega, rfl, length_swap _ _ _, ?_, ?_, ?_⟩
  · show (swap buf (off + r) (off + (n - 1))).getD (off + r) 0 = _
    rw [getD_swap _ _ _ _ (by omega) (by omega)]
    by_cases c : off + r = off + (n - 1)
    · rw [if_pos c, c]
    · rw [if_neg c, if_pos rfl]
  · show (swap buf (off + r) (off + (n - 1))).getD (off + (n - 1)) 0 = _
    rw [getD_swap _ _ _ _ (by omega) (by omega), if_pos rfl]
  · intro j h1 h2
    show (swap buf (off + r) (off + (n - 1))).getD j 0 = _
    rw [getD_swap _ _ _ _ (by omega) (by omega), if_neg h2, if_neg h1]

theorem uniformRandomMedianPivot_exchanges_last_witness :
    ((0 : Nat) < 3 ∧ 1 + 3 ≤ ([9, 2, 1, 3, 7] : List Int).length ∧ (fun _ => 4 : RandSrc) 0 % 3 = 1) ∧
    Quicksort.uniformRandomMedianPivot [9, 2, 1, 3, 7] 1 3 (fun _ => 4)
      = (.ok 2, [9, 2, 3, 1, 7], fun _ => 4) ∧
    (Quicksort.uniformRandomMedianPivot [9, 2, 1, 3, 7] 1 3 (fun _ => 4)).1 = .ok (3 - 1) :=
  ⟨⟨by decide, by decide, by decide⟩, rfl,
    (uniformRandomMedianPivot_exchanges_last [9, 2, 1, 3, 7] 1 3 1 (fun _ => 4) (by decide)
      (by decide) (by decide)).2.1⟩

/-- C16: every index range handed to a partition step is valid.  In `quickSort`
started on `[0, len - 1]` of a non-empty vector, in `quickSelect`, and in
`deterministicQuickSelect` and `randomQuickSelect` started with
`low ≤ k ≤ high` inside the buffer, each partition step has `low ≤ high`, both
below the buffer length, and its pivot index inside `[low, high]`, and
`pivotIndex - 1` is only evaluated for `pivotIndex ≥ 1`. -/
theorem partition_ranges_valid (fuel : Nat) (g : RandSrc) :
    (∀ (v : List Int) (pf : Pivot_f), v ≠ [] → InWindowPivot v.length pf →
      ∀ e ∈ Quicksort.quickSortEvents pf fuel v 0 (v.length - 1) g, e.Valid) ∧
    (∀ (v : List Int) (k : Int) (pf : Pivot_f), 1 ≤ k → k ≤ (v.length : Int) →
      InWindowPivot v.length pf →
      ∀ e ∈ KthOrder.quickSelectEvents pf k fuel v 0 ((v.length : Int) - 1) g, e.Valid) ∧
    (∀ (arr : List Int) (low high k : Nat), low ≤ k → k ≤ high → high < arr.length →
      ∀ e ∈ Median.deterministicQuickSelectEvents fuel arr low high k g, e.Valid) ∧
    (∀ (arr : List Int) (low high k : Nat), low ≤ k → k ≤ high → high < arr.length →
      ∀ e ∈ Median.randomQuickSelectEvents fuel arr low high k g, e.Valid) := by
  refine ⟨?_, ?_, ?_, ?_⟩
  · intro v pf hv hpf
    have hpos : 0 < v.length := List.length_pos.mpr hv
    exact (Quicksort.quickSortEvents_spec pf v.length hpf fuel v 0 (v.length - 1) g rfl
      (Nat.zero_le _) (by omega)).2
  · intro v k pf hk1 hk2 hpf e he
    exact ((KthOrder.quickSelectEvents_spec pf v.length hpf k fuel v 0 ((v.length : Int) - 1) g
      rfl (le_refl _) (by omega) (by omega) (by omega)).1 e he).1
  · intro arr low high k h1 h2 h3
    exact Median.deterministicQuickSelectEvents_valid fuel arr low high k g h1 h2 h3
  · intro arr low high k h1 h2 h3
    exact Median.randomQuickSelectEvents_valid fuel arr low high k g h1 h2 h3

theorem partition_ranges_valid_witness :
    Quicksort.quickSortEvents deterministicPivot 5 [5, 3, 1, 4, 2] 0 4 (fun _ => 0)
      = [.partitionCall 0 4 0 5, .predecessor 4, .partitionCall 0 3 0 5, .predecessor 1,
          .partitionCall 2 3 2 5, .predecessor 3] ∧
    (∀ e ∈ Quicksort.quickSortEvents deterministicPivot 5 [5, 3, 1, 4, 2] 0
        (([5, 3, 1, 4, 2] : List Int).length - 1) (fun _ => 0), e.Valid) ∧
    (∀ e ∈ Median.deterministicQuickSelectEvents 5 [5, 3, 1, 4, 2] 0 4 2 (fun _ => 0), e.Valid) :=
  ⟨by decide,
   (partition_ranges_valid 5 (fun _ => 0)).1 [5, 3, 1, 4, 2] deterministicPivot (by decide)
      (deterministicPivot_pure.good _).inWindow,
   (partition_ranges_valid 5 (fun _ => 0)).2.2.1 [5, 3, 1, 4, 2] 0 4 2 (by decide) (by decide)
      (by decide)⟩

/-- C17: `partition(arr, low, high, pivotIndex)` with
`low ≤ pivotIndex ≤ high < len(arr)` only reorders the window: the length is
kept, every position outside `[low, high]` is unchanged, and the contents of
`[low, high]` afterwards are a permutation of its contents before. -/
theorem partition_reorders_window_only (arr : List Int) (low high pivotIndex : Nat)
    (h1 : low ≤ pivotIndex) (h2 : pivotIndex ≤ high) (h3 : high < arr.length) :
    (KthOrder.partition arr low high pivotIndex).2.length = arr.length ∧
    (∀ j, j < low ∨ high < j →
      (KthOrder.partition arr low high pivotIndex).2.getD j 0 = arr.getD j 0) ∧
    (((KthOrder.partition arr low high pivotIndex).2.drop low).take (high + 1 - low)).Perm
      ((arr.drop low).take (high + 1 - low)) := by
  obtain ⟨r, arr2, e, _, _, w, _, _, _⟩ := KthOrder.partition_spec arr low high pivotIndex h1 h2 h3
  rw [e]
  refine ⟨w.length_eq, ?_, w.window_perm⟩
  intro j hj
  exact w.outside j (by omega)

theorem partition_reorders_window_only_witness :
    ((1 : Nat) ≤ 2 ∧ (2 : Nat) ≤ 3 ∧ 3 < ([9, 3, 1, 2, 0] : List Int).length) ∧
    KthOrder.partition [9, 3, 1, 2, 0] 1 3 2 = (1, [9, 1, 2, 3, 0]) ∧
    (((KthOrder.partition [9, 3, 1, 2, 0] 1 3 2).2.drop 1).take (3 + 1 - 1)).Perm
      ((([9, 3, 1, 2, 0] : List Int).drop 1).take (3 + 1 - 1)) :=
  ⟨⟨by decide, by decide, by decide⟩, by decide,
    (partition_reorders_window_only [9, 3, 1, 2, 0] 1 3 2 (by decide) (by decide)
      (by decide)).2.2⟩

/-- C18: the three partition implementations are the same primitive.  On a
window `low ≤ high` inside the buffer, `deterministic_partition` (whose strategy
chooses `low`), `random_partition` (whose strategy chooses `low + rand() % n`)
and the `partition` of the quicksort file with a strategy that returns `i`
without changing the buffer (so the pivot is `low + i`) return the same index
and leave the same buffer as `partition(arr, low, high, p)` of the quickselect
file for the chosen `p`, which lies in the window. -/
theorem partitions_agree (arr : List Int) (low high : Nat) (g : RandSrc) (pf : Pivot_f)
    (i : Nat) (g1 : RandSrc) (h1 : low ≤ high) (h2 : high < arr.length)
    (hpf : pf arr low (high - low + 1) g = (.ok i, arr, g1)) (hi : i < high - low + 1) :
    Median.deterministic_partition arr low high g
      = (.ok (KthOrder.partition arr low high low).1, (KthOrder.partition arr low high low).2, g) ∧
    (Median.random_partition arr low high g
      = (.ok (KthOrder.partition arr low high (g 0 % (high - low + 1) + low)).1,
          (KthOrder.partition arr low high (g 0 % (high - low + 1) + low)).2, (rand g).2) ∧
      low ≤ g 0 % (high - low + 1) + low ∧ g 0 % (high - low + 1) + low ≤ high) ∧
    (Quicksort.partition arr pf low high g
      = (.ok (KthOrder.partition arr low high (i + low)).1,
          (KthOrder.partition arr low high (i + low)).2, g1) ∧
      low ≤ i + low ∧ i + low ≤ high ∧ i + low < arr.length) := by
  have hm : g 0 % (high - low + 1) < high - low + 1 := Nat.mod_lt _ (by omega)
  exact ⟨Median.deterministic_partition_eq arr low high g,
    ⟨Median.random_partition_eq arr low high g, by omega, by omega⟩,
    ⟨Quicksort.partition_eq_kth arr pf low high g i arr g1 hpf, by omega, by omega, by omega⟩⟩

theorem partitions_agree_witness :
    ((0 : Nat) ≤ 4 ∧ 4 < ([5, 3, 1, 4, 2] : List Int).length) ∧
    Median.deterministic_partition [5, 3, 1, 4, 2] 0 4 (fun _ => 0)
      = (.ok (KthOrder.partition [5, 3, 1, 4, 2] 0 4 0).1,
          (KthOrder.partition [5, 3, 1, 4, 2] 0 4 0).2, fun _ => 0) ∧
    Quicksort.partition [5, 3, 1, 4, 2] deterministicPivot 0 4 (fun _ => 0)
      = (.ok (KthOrder.partition [5, 3, 1, 4, 2] 0 4 (0 + 0)).1,
          (KthOrder.partition [5, 3, 1, 4, 2] 0 4 (0 + 0)).2, fun _ => 0) ∧
    KthOrder.partition [5, 3, 1, 4, 2] 0 4 0 = (4, [2, 3, 1, 4, 5]) :=
  ⟨⟨by decide, by decide⟩,
   (partitions_agree [5, 3, 1, 4, 2] 0 4 (fun _ => 0) deterministicPivot 0 (fun _ => 0)
      (by decide) (by decide) rfl (by decide)).1,
   (partitions_agree [5, 3, 1, 4, 2] 0 4 (fun _ => 0) deterministicPivot 0 (fun _ => 0)
      (by decide) (by decide) rfl (by decide)).2.2.1,
   by decide⟩

/-- C19: for a buffer `arr` of length `n` and a 0-based index `k < n` (so `arr`
is non-empty), `deterministicQuickSelect(arr, 0, n - 1, k)` returns the same
value and leaves the same buffer as `quickSelect(arr, k + 1, deterministicPivot)`,
and both return a value once the step budget covers `n` rounds. -/
theorem deterministicQuickSelect_agrees_with_quickSelect (fuel : Nat) (arr : List Int) (k : Nat)
    (g : RandSrc) (hk : k < arr.length) :
    (Median.deterministicQuickSelect fuel arr 0 (arr.length - 1) k g).1
      = (KthOrder.quickSelect fuel arr ((k : Int) + 1) (some deterministicPivot) g).1 ∧
    (Median.deterministicQuickSelect fuel arr 0 (arr.length - 1) k g).2.1
      = (KthOrder.quickSelect fuel arr ((k : Int) + 1) (some deterministicPivot) g).2.1 ∧
    (arr.length ≤ fuel →
      ∃ x, (Median.deterministicQuickSelect fuel arr 0 (arr.length - 1) k g).1 = .ok x) := by
  rw [KthOrder.quickSelect_eq_deterministicQuickSelect fuel arr k g hk]
  refine ⟨rfl, rfl, ?_⟩
  intro hf
  obtain ⟨arr2, g2, e, _, _⟩ := Median.deterministicQuickSelect_spec fuel arr 0 (arr.length - 1)
    k g (Nat.zero_le _) (by omega) (by omega) (splitAt_zero _)
    (splitAt_length _ _ (by omega)) (by omega)
  exact ⟨_, by rw [e]⟩

theorem deterministicQuickSelect_agrees_with_quickSelect_witness :
    (2 < ([5, 3, 1, 4, 2] : List Int).length) ∧
    Median.deterministicQuickSelect 5 [5, 3, 1, 4, 2] 0 4 2 (fun _ => 0)
      = (.ok 3, [1, 2, 3, 4, 5], fun _ => 0) ∧
    (Median.deterministicQuickSelect 5 [5, 3, 1, 4, 2] 0 (([5, 3, 1, 4, 2] : List Int).length - 1)
        2 (fun _ => 0)).2.1
      = (KthOrder.quickSelect 5 [5, 3, 1, 4, 2] (((2 : Nat) : Int) + 1) (some deterministicPivot)
          (fun _ => 0)).2.1 :=
  ⟨by decide, rfl,
    (deterministicQuickSelect_agrees_with_quickSelect 5 [5, 3, 1, 4, 2] 2 (fun _ => 0)
      (by decide)).2.1⟩

/-- C20: for a rank `1 ≤ k ≤ len(v)` and a pivot strategy that meets the pivot
contract, `quickSelect(v, k, pivot)` returns a value once the step budget covers
`len(v)` iterations, and whenever it returns `x` the vector it leaves behind is
a permutation of the original with `x` at index `k - 1`, every element before
that index at most `x` and every element after it at least `x`. -/
theorem quickSelect_leaves_partitioned (v : List Int) (k : Int) (pf : Pivot_f) (fuel : Nat)
    (g : RandSrc) (hk1 : 1 ≤ k) (hk2 : k ≤ (v.length : Int)) (hpf : GoodPivot v.length pf) :
    (v.length ≤ fuel → ∃ x, (KthOrder.quickSelect fuel v k (some pf) g).1 = .ok x) ∧
    ∀ x, (KthOrder.quickSelect fuel v k (some pf) g).1 = .ok x →
      (KthOrder.quickSelect fuel v k (some pf) g).2.1.Perm v ∧
      (KthOrder.quickSelect fuel v k (some pf) g).2.1.getD (k - 1).toNat 0 = x ∧
      (∀ i, i < (k - 1).toNat →
        (KthOrder.quickSelect fuel v k (some pf) g).2.1.getD i 0 ≤ x) ∧
      (∀ i, (k - 1).toNat < i → i < v.length →
        x ≤ (KthOrder.quickSelect fuel v k (some pf) g).2.1.getD i 0) := by
  rcases KthOrder.quickSelect_spec pf v hpf k fuel g hk1 hk2 with
    ⟨o1, o2⟩ | ⟨v2, g2, e, p, ev, sel⟩
  · refine ⟨fun hf => by omega, ?_⟩
    intro x hx
    rw [o1] at hx
    cases hx
  · rw [e]
    refine ⟨fun _ => ⟨_, rfl⟩, ?_⟩
    intro x hx
    have ex : (sortedCopy v).getD (k - 1).toNat 0 = x := by
      simpa using hx
    have hl : v2.length = v.length := p.length_eq
    rw [← ex, ← ev]
    refine ⟨p, rfl, sel.1, ?_⟩
    intro i h1 h2
    exact sel.2 i h1 (by omega)

theorem quickSelect_leaves_partitioned_witness :
    ((1 : Int) ≤ 2 ∧ (2 : Int) ≤ (([3, 2, 5, 4] : List Int).length : Int)) ∧
    KthOrder.quickSelect 4 [3, 2, 5, 4] 2 (some deterministicPivot) (fun _ => 0)
      = (.ok 3, [2, 3, 5, 4], fun _ => 0) ∧
    (KthOrder.quickSelect 4 [3, 2, 5, 4] 2 (some deterministicPivot)
      (fun _ => 0)).2.1.Perm [3, 2, 5, 4] :=
  ⟨⟨by decide, by decide⟩, rfl,
    ((quickSelect_leaves_partitioned [3, 2, 5, 4] 2 deterministicPivot 4 (fun _ => 0) (by decide)
      (by decide) (deterministicPivot_pure.good _)).2 3 rfl).1⟩

/-! ## The recursion of `quickSort` -/

theorem Quicksort.quickSortCalls_spec (pf : Pivot_f) (L : Nat) (hpf : InWindowPivot L pf) :
    ∀ (fuel : Nat) (v : List Int) (left right : Nat) (g : RandSrc),
      v.length = L → left ≤ right → right < L →
      (∀ c ∈ Quicksort.quickSortCalls pf fuel v left right g, c.Shrinks) ∧
      (right - left + 1 ≤ fuel → (Quicksort.quickSort pf fuel v left right g).1 = .ok ()) := by
  intro fuel
  induction fuel with
  | zero =>
    intro v left right g hL _ _
    refine ⟨?_, fun hf => by omega⟩
    intro c hc
    unfold Quicksort.quickSortCalls at hc
    cases hc
  | succ fuel ih =>
    intro v left right g hL hlr hr
    unfold Quicksort.quickSort Quicksort.quickSortCalls
    by_cases c : left < right
    · rw [if_pos c, if_pos c]
      obtain ⟨i, v1, g1, e1, hi, hL1⟩ := hpf v left (right - left + 1) g hL (by omega) (by omega)
      obtain ⟨r, v2, e2, b1, b2, w, _, _, _⟩ :=
        KthOrder.partition_spec v1 left right (i + left) (by omega) (by omega) (by omega)
      have hL2 : v2.length = L := by rw [w.length_eq, hL1]
      rw [Quicksort.partition_eq_kth v pf left right g i v1 g1 e1, e2]
      simp only []
      -- the left recursive call, on `[left, r - 1]`
      have hA : ((if left < r then Quicksort.quickSort pf fuel v2 left (r - 1) g1
            else (Except.ok (), v2, g1)).2.1.length = L) ∧
          (∀ c ∈ (if left < r then
              ({ left := left, right := right, pivotIndex := r, subLeft := left,
                 subRight := r - 1 } : Quicksort.RecursiveCall) ::
                Quicksort.quickSortCalls pf fuel v2 left (r - 1) g1
            else []), c.Shrinks) ∧
          (right - left + 1 ≤ fuel + 1 →
            (if left < r then Quicksort.quickSort pf fuel v2 left (r - 1) g1
              else (Except.ok (), v2, g1)).1 = .ok ()) := by
        by_cases cl : left < r
        · rw [if_pos cl, if_pos cl]
          obtain ⟨s1, t1⟩ := ih v2 left (r - 1) g1 hL2 (by omega) (by omega)
          refine ⟨(Quicksort.quickSortEvents_spec pf L hpf fuel v2 left (r - 1) g1 hL2 (by omega)
            (by omega)).1, ?_, fun hf => t1 (by omega)⟩
          intro c hc
          rcases List.mem_cons.mp hc with h | h
          · rw [h]
            unfold Quicksort.RecursiveCall.Shrinks
            dsimp only
            omega
          · exact s1 c h
        · rw [if_neg cl, if_neg cl]
          refine ⟨hL2, ?_, fun _ => rfl⟩
          intro c hc
          cases hc
      obtain ⟨hAlen, hAcalls, hAok⟩ := hA
      rcases hres : (if left < r then Quicksort.quickSort pf fuel v2 left (r - 1) g1
            else (Except.ok (), v2, g1)) with ⟨rA, vA, gA⟩
      rw [hres] at hAlen hAok
      cases rA with
      | error err =>
        simp only []
        refine ⟨?_, ?_⟩
        · intro c hc
          rw [List.append_nil] at hc
          exact hAcalls c hc
        · intro hf
          have := hAok hf
          cases this
      | ok u =>
        simp only []
        by_cases cr : r < right
        · rw [if_pos cr, if_pos cr]
          obtain ⟨s2, t2⟩ := ih vA (r + 1) right gA hAlen (by omega) hr
          refine ⟨?_, fun hf => t2 (by omega)⟩
          intro c hc
          rcases List.mem_append.mp hc with h | h
          · exact hAcalls c h
          · rcases List.mem_cons.mp h with h | h
            · rw [h]
              unfold Quicksort.RecursiveCall.Shrinks
              dsimp only
              omega
            · exact s2 c h
        · rw [if_neg cr, if_neg cr]
          refine ⟨?_, fun _ => rfl⟩
          intro c hc
          rw [List.append_nil] at hc
          exact hAcalls c hc
    · rw [if_neg c, if_neg c]
      refine ⟨?_, fun _ => rfl⟩
      intro c hc
      cases hc

theorem Quicksort.quickSort_stops (pf : Pivot_f) (fuel : Nat) (v : List Int) (left right : Nat)
    (g : RandSrc) (h : right ≤ left) :
    Quicksort.quickSort pf (fuel + 1) v left right g = (.ok (), v, g) ∧
    Quicksort.quickSortCalls pf (fuel + 1) v left right g = [] ∧
    Quicksort.quickSortEvents pf (fuel + 1) v left right g = [] := by
  unfold Quicksort.quickSort Quicksort.quickSortCalls Quicksort.quickSortEvents
  rw [if_neg (by omega), if_neg (by omega), if_neg (by omega)]
  exact ⟨rfl, rfl, rfl⟩

/-- C21: `quickSort` terminates.  For a range `left ≤ right < len(v)` and a pivot
strategy that returns an index of the window it is given, the call returns
normally once the step budget covers `right - left + 1` nested calls; every
recursive call of the call tree is made on a strictly shorter range inside the
current one that excludes the pivot's resting position; and a call with
`left ≥ right` returns at once, without a partition step or a recursive call. -/
theorem quickSort_terminates (v : List Int) (left right : Nat) (pf : Pivot_f) (g : RandSrc)
    (h1 : left ≤ right) (h2 : right < v.length) (hpf : InWindowPivot v.length pf) :
    (∀ fuel, right - left + 1 ≤ fuel → (Quicksort.quickSort pf fuel v left right g).1 = .ok ()) ∧
    (∀ fuel, ∀ c ∈ Quicksort.quickSortCalls pf fuel v left right g,
      c.left ≤ c.subLeft ∧ c.subLeft ≤ c.subRight ∧ c.subRight ≤ c.right ∧
      c.subRight - c.subLeft < c.right - c.left ∧
      c.left ≤ c.pivotIndex ∧ c.pivotIndex ≤ c.right ∧
      (c.pivotIndex < c.subLeft ∨ c.subRight < c.pivotIndex)) ∧
    (∀ (fuel : Nat) (w : List Int) (l r : Nat) (g2 : RandSrc), r ≤ l →
      Quicksort.quickSort pf (fuel + 1) w l r g2 = (.ok (), w, g2) ∧
      Quicksort.quickSortCalls pf (fuel + 1) w l r g2 = [] ∧
      Quicksort.quickSortEvents pf (fuel + 1) w l r g2 = []) := by
  refine ⟨?_, ?_, ?_⟩
  · intro fuel hf
    exact (Quicksort.quickSortCalls_spec pf v.length hpf fuel v left right g rfl h1 h2).2 hf
  · intro fuel c hc
    exact (Quicksort.quickSortCalls_spec pf v.length hpf fuel v left right g rfl h1 h2).1 c hc
  · intro fuel w l r g2 h
    exact Quicksort.quickSort_stops pf fuel w l r g2 h

theorem quickSort_terminates_witness :
    ((0 : Nat) ≤ 4 ∧ 4 < ([5, 3, 1, 4, 2] : List Int).length) ∧
    Quicksort.quickSortCalls deterministicPivot 5 [5, 3, 1, 4, 2] 0 4 (fun _ => 0)
      = [{ left := 0, right := 4, pivotIndex := 4, subLeft := 0, subRight := 3 },
         { left := 0, right := 3, pivotIndex := 1, subLeft := 0, subRight := 0 },
         { left := 0, right := 3, pivotIndex := 1, subLeft := 2, subRight := 3 },
         { left := 2, right := 3, pivotIndex := 3, subLeft := 2, subRight := 2 }] ∧
    (Quicksort.quickSort deterministicPivot 5 [5, 3, 1, 4, 2] 0 4 (fun _ => 0)).1 = .ok () :=
  ⟨⟨by decide, by decide⟩, by decide,
    (quickSort_terminates [5, 3, 1, 4, 2] 0 4 deterministicPivot (fun _ => 0) (by decide)
      (by decide) (deterministicPivot_pure.good _).inWindow).1 5 (by decide)⟩

end AlgoLab2
